import Mathlib

/-!
# Perlin improved noise (`_perlin.c`): shallow embedding

The C functions of `_perlin.c` are transcribed as Lean functions.

* `float` values are exact rationals (`ℚ`); rounding, infinities and NaN are not represented.
* `int` values are mathematical integers (`Int`); overflow is not represented.
* The tables `PERM` and `GRAD3` are declared in `_noise.h`; every kernel takes them as
  parameters (`PERM i` is the entry read by `PERM[i]`, `GRAD3 h c` the entry `GRAD3[h][c]`).
* An entry point is modelled on its parsed arguments and yields a `PyResult`.
* A grid entry point yields the array it allocated together with the sequence of stores
  `data[idx] = v` it performed, in program order; `PyArray_SimpleNew` is taken to succeed.
* Integer `%` by zero is undefined in C and makes the call `PyResult.undefined`.
-/

namespace Perlin

/-! ## C primitives -/

/-- C `a % b` on `int`: the remainder of the division truncating toward zero.
The operation is undefined when `b` is zero. -/
def c_mod (a b : Int) : Option Int :=
  if b = 0 then none else some (Int.tmod a b)

/-- C `a & b` on two's-complement `int`. -/
def c_and (a b : Int) : Int := Int.land a b

/-- C conversion `(int)x` of a `float`: truncation toward zero. -/
def c_int (x : ℚ) : Int := if 0 ≤ x then ⌊x⌋ else ⌈x⌉

/-- The libm function `floorf`. -/
def floorf (x : ℚ) : ℚ := ((⌊x⌋ : Int) : ℚ)

/-- The libm function `fmodf`: `x - n * y` where `n` is `x / y` truncated toward zero.
(For `y = 0` the C function yields NaN, which has no counterpart here.) -/
def fmodf (x y : ℚ) : ℚ := x - ((c_int (x / y) : Int) : ℚ) * y

/-- Number of passes of `for (int i = 0; i < bound; i++)` for a `float` bound:
the body runs for `i = 0, 1, ...` while `i < bound`. -/
def c_count_below (bound : ℚ) : Nat := Int.toNat ⌈bound⌉

/-- Number of passes of `for (int i = 0; i < bound; i++)` for an `int` bound. -/
def c_count (bound : Int) : Nat := Int.toNat bound

/-- State reached after `n` passes through a loop body; `none` as soon as a pass is undefined. -/
def c_loop {σ : Type} (body : σ → Option σ) : Nat → σ → Option σ
  | 0, s => some s
  | n + 1, s => (c_loop body n s).bind body

/-- Stores performed by `for (i = 0; i < n; i++) data[..] = ..`, where `cell i` is the store
of pass `i`; `none` as soon as a pass is undefined. -/
def c_for_cells (cell : Nat → Option (Int × ℚ)) : Nat → Option (List (Int × ℚ))
  | 0 => some []
  | n + 1 => (c_for_cells cell n).bind fun ws => (cell n).map fun w => ws ++ [w]

/-! ## Results of the Python entry points -/

/-- Outcome of an entry point: a returned object, a raised `ValueError`
(`PyErr_SetString(PyExc_ValueError, msg); return NULL`), or undefined behaviour of the C code. -/
inductive PyResult (α : Type) where
  | ok (v : α)
  | valueError (msg : String)
  | undefined
  deriving DecidableEq

/-- An undefined computation makes the whole call undefined. -/
def PyResult.ofOption {α : Type} : Option α → PyResult α
  | some v => PyResult.ok v
  | none => PyResult.undefined

/-- The array returned by a grid entry point: the `dims` handed to `PyArray_SimpleNew`
and the stores `data[idx] = v` performed on its buffer, in program order.
The buffer has `dims.prod` cells and is not initialised by the allocation. -/
structure NpArray where
  dims : List Int
  writes : List (Int × ℚ)
  deriving DecidableEq

/-- Number of cells of the buffer. -/
def NpArray.size (a : NpArray) : Int := a.dims.prod

/-- Content of flat cell `idx` after all stores: the value of the last store to `idx`,
`none` when no store went to `idx` (uninitialised memory). -/
def NpArray.cell (a : NpArray) (idx : Int) : Option ℚ :=
  a.writes.foldl (fun cur w => if w.1 = idx then some w.2 else cur) none

/-- Every store of the call went to a cell of the allocated buffer. -/
def NpArray.inBounds (a : NpArray) : Prop :=
  ∀ w ∈ a.writes, 0 ≤ w.1 ∧ w.1 < a.size

instance (a : NpArray) : Decidable a.inBounds := by
  unfold NpArray.inBounds
  exact inferInstance

/-- Locals `freq`, `amp`, `max`, `total` of the fBm loops, with their initial values. -/
structure Fbm where
  freq : ℚ := 1
  amp : ℚ := 1
  max : ℚ := 0
  total : ℚ := 0
  deriving DecidableEq

/-! ## One dimension -/

/-- The macro `lerp(t, a, b)`. -/
def lerp (t a b : ℚ) : ℚ := a + t * (b - a)

/-- The function `grad1`. -/
def grad1 (hash : Int) (x : ℚ) : ℚ :=
  let g : ℚ := ((c_and hash 7 : Int) : ℚ) + 1
  let g : ℚ := if c_and hash 8 ≠ 0 then -1 else g
  g * x

/-- The function `noise1`. -/
def noise1 (PERM : Int → Int) (x : ℚ) (repeat_ base : Int) : Option ℚ :=
  (c_mod (c_int (floorf x)) repeat_).bind fun i =>
  (c_mod (i + 1) repeat_).bind fun ii =>
  let i := c_and i 255 + base
  let ii := c_and ii 255 + base
  let x := x - floorf x
  let fx := x * x * x * (x * (x * 6 - 15) + 10)
  some (lerp fx (grad1 (PERM i) x) (grad1 (PERM ii) (x - 1)) * (2 / 5))

/-- One pass of the octave loop of `py_noise1` and `py_arr_noise1`. -/
def octave1 (PERM : Int → Int) (x persistence lacunarity : ℚ) (repeat_ base : Int)
    (s : Fbm) : Option Fbm :=
  (noise1 PERM (x * s.freq) (c_int ((repeat_ : ℚ) * s.freq)) base).map fun n =>
    { total := s.total + n * s.amp
      max := s.max + s.amp
      freq := s.freq * lacunarity
      amp := s.amp * persistence }

/-- The entry point `py_noise1` (Python `noise1`). -/
def py_noise1 (PERM : Int → Int) (x : ℚ) (octaves : Int) (persistence lacunarity : ℚ)
    (repeat_ base : Int) : PyResult ℚ :=
  if octaves = 1 then
    PyResult.ofOption (noise1 PERM x repeat_ base)
  else if octaves > 1 then
    PyResult.ofOption
      ((c_loop (octave1 PERM x persistence lacunarity repeat_ base) (c_count octaves) {}).map
        fun s => s.total / s.max)
  else
    PyResult.valueError "Expected octaves value > 0"

/-- The entry point `py_arr_noise1` (Python `noisearr1`). -/
def py_arr_noise1 (PERM : Int → Int) (x : ℚ) (x_size : Int) (x_res : ℚ) (octaves : Int)
    (persistence lacunarity : ℚ) (repeat_ base : Int) : PyResult NpArray :=
  if octaves ≤ 0 then
    PyResult.valueError "Expected octaves value > 0"
  else if octaves = 1 then
    PyResult.ofOption
      ((c_for_cells (fun i =>
          (noise1 PERM (x + (i : ℚ) / x_res) repeat_ base).map fun v => ((i : Int), v))
        (c_count_below x_res)).map fun ws => { dims := [x_size], writes := ws })
  else
    PyResult.ofOption
      ((c_for_cells (fun i =>
          let loop_x := x + (i : ℚ) / x_res
          (c_loop (octave1 PERM loop_x persistence lacunarity repeat_ base)
              (c_count octaves) {}).map fun s => ((i : Int), s.total / s.max))
        (c_count_below x_res)).map fun ws => { dims := [x_size], writes := ws })

/-! ## Two dimensions -/

/-- The function `grad2`. -/
def grad2 (GRAD3 : Int → Int → ℚ) (hash : Int) (x y : ℚ) : ℚ :=
  let h := c_and hash 15
  x * GRAD3 h 0 + y * GRAD3 h 1

/-- The function `noise2`. -/
def noise2 (PERM : Int → Int) (GRAD3 : Int → Int → ℚ) (x y repeatx repeaty : ℚ)
    (base : Int) : ℚ :=
  let i := c_int (floorf (fmodf x repeatx))
  let j := c_int (floorf (fmodf y repeaty))
  let ii := c_int (fmodf ((i + 1 : Int) : ℚ) repeatx)
  let jj := c_int (fmodf ((j + 1 : Int) : ℚ) repeaty)
  let i := c_and i 255 + base
  let j := c_and j 255 + base
  let ii := c_and ii 255 + base
  let jj := c_and jj 255 + base
  let x := x - floorf x
  let y := y - floorf y
  let fx := x * x * x * (x * (x * 6 - 15) + 10)
  let fy := y * y * y * (y * (y * 6 - 15) + 10)
  let A := PERM i
  let AA := PERM (A + j)
  let AB := PERM (A + jj)
  let B := PERM ii
  let BA := PERM (B + j)
  let BB := PERM (B + jj)
  lerp fy (lerp fx (grad2 GRAD3 (PERM AA) x y)
                   (grad2 GRAD3 (PERM BA) (x - 1) y))
          (lerp fx (grad2 GRAD3 (PERM AB) x (y - 1))
                   (grad2 GRAD3 (PERM BB) (x - 1) (y - 1)))

/-- One pass of the octave loop of `py_noise2`. -/
def octave2 (PERM : Int → Int) (GRAD3 : Int → Int → ℚ)
    (x y persistence lacunarity repeatx repeaty : ℚ) (base : Int) (s : Fbm) : Fbm :=
  { total := s.total +
      noise2 PERM GRAD3 (x * s.freq) (y * s.freq) (repeatx * s.freq) (repeaty * s.freq) base
        * s.amp
    max := s.max + s.amp
    freq := s.freq * lacunarity
    amp := s.amp * persistence }

/-- The entry point `py_noise2` (Python `noise2`). -/
def py_noise2 (PERM : Int → Int) (GRAD3 : Int → Int → ℚ) (x y : ℚ) (octaves : Int)
    (persistence lacunarity repeatx repeaty : ℚ) (base : Int) : PyResult ℚ :=
  if octaves = 1 then
    PyResult.ok (noise2 PERM GRAD3 x y repeatx repeaty base)
  else if octaves > 1 then
    let s := (octave2 PERM GRAD3 x y persistence lacunarity repeatx repeaty base)^[c_count octaves]
      {}
    PyResult.ok (s.total / s.max)
  else
    PyResult.valueError "Expected octaves value > 0"

/-- One pass of the octave loop of `py_arr_noise2`, for the sample at `loop_x`, `loop_y`. -/
def arr_octave2 (PERM : Int → Int) (GRAD3 : Int → Int → ℚ)
    (loop_x loop_y persistence lacunarity repeatx repeaty : ℚ) (base : Int) (s : Fbm) : Fbm :=
  { total := s.total +
      noise2 PERM GRAD3 (loop_x * s.freq) (loop_y * s.freq) (repeatx * s.freq)
        (repeaty * s.freq) base * s.amp
    max := s.max + s.amp
    freq := s.freq * lacunarity
    amp := s.amp * persistence }

/-- The entry point `py_arr_noise2` (Python `noisearr2`). -/
def py_arr_noise2 (PERM : Int → Int) (GRAD3 : Int → Int → ℚ) (x y : ℚ) (width height : Int)
    (x_res y_res : ℚ) (octaves : Int) (persistence lacunarity repeatx repeaty : ℚ)
    (base : Int) : PyResult NpArray :=
  if octaves ≤ 0 then
    PyResult.valueError "Expected octaves value > 0"
  else if octaves = 1 then
    PyResult.ok
      { dims := [width, height]
        writes := (List.range (c_count height)).flatMap fun (i : Nat) =>
          let rowIndex := width * (i : Int)
          (List.range (c_count width)).map fun (j : Nat) =>
            (rowIndex + (j : Int),
              noise2 PERM GRAD3 (x + (j : ℚ) / x_res) (y + (i : ℚ) / y_res) repeatx repeaty
                base) }
  else
    PyResult.ok
      { dims := [width, height]
        writes := (List.range (c_count height)).flatMap fun (i : Nat) =>
          let rowIndex := width * (i : Int)
          (List.range (c_count width)).map fun (j : Nat) =>
            let loop_x := x + (j : ℚ) / x_res
            let loop_y := y + (i : ℚ) / y_res
            let s := (arr_octave2 PERM GRAD3 loop_x loop_y persistence lacunarity repeatx
              repeaty base)^[c_count octaves] {}
            (rowIndex + (j : Int), s.total / s.max) }

/-! ## Three dimensions -/

/-- The function `grad3`. -/
def grad3 (GRAD3 : Int → Int → ℚ) (hash : Int) (x y z : ℚ) : ℚ :=
  let h := c_and hash 15
  x * GRAD3 h 0 + y * GRAD3 h 1 + z * GRAD3 h 2

/-- The function `noise3`. The `int` periods are converted to `float` for `fmodf`. -/
def noise3 (PERM : Int → Int) (GRAD3 : Int → Int → ℚ) (x y z : ℚ)
    (repeatx repeaty repeatz base : Int) : ℚ :=
  let i := c_int (floorf (fmodf x (repeatx : ℚ)))
  let j := c_int (floorf (fmodf y (repeaty : ℚ)))
  let k := c_int (floorf (fmodf z (repeatz : ℚ)))
  let ii := c_int (fmodf ((i + 1 : Int) : ℚ) (repeatx : ℚ))
  let jj := c_int (fmodf ((j + 1 : Int) : ℚ) (repeaty : ℚ))
  let kk := c_int (fmodf ((k + 1 : Int) : ℚ) (repeatz : ℚ))
  let i := c_and i 255 + base
  let j := c_and j 255 + base
  let k := c_and k 255 + base
  let ii := c_and ii 255 + base
  let jj := c_and jj 255 + base
  let kk := c_and kk 255 + base
  let x := x - floorf x
  let y := y - floorf y
  let z := z - floorf z
  let fx := x * x * x * (x * (x * 6 - 15) + 10)
  let fy := y * y * y * (y * (y * 6 - 15) + 10)
  let fz := z * z * z * (z * (z * 6 - 15) + 10)
  let A := PERM i
  let AA := PERM (A + j)
  let AB := PERM (A + jj)
  let B := PERM ii
  let BA := PERM (B + j)
  let BB := PERM (B + jj)
  lerp fz (lerp fy (lerp fx (grad3 GRAD3 (PERM (AA + k)) x y z)
                            (grad3 GRAD3 (PERM (BA + k)) (x - 1) y z))
                   (lerp fx (grad3 GRAD3 (PERM (AB + k)) x (y - 1) z)
                            (grad3 GRAD3 (PERM (BB + k)) (x - 1) (y - 1) z)))
          (lerp fy (lerp fx (grad3 GRAD3 (PERM (AA + kk)) x y (z - 1))
                            (grad3 GRAD3 (PERM (BA + kk)) (x - 1) y (z - 1)))
                   (lerp fx (grad3 GRAD3 (PERM (AB + kk)) x (y - 1) (z - 1))
                            (grad3 GRAD3 (PERM (BB + kk)) (x - 1) (y - 1) (z - 1))))

/-- One pass of the octave loop of `py_noise3`. -/
def octave3 (PERM : Int → Int) (GRAD3 : Int → Int → ℚ) (x y z persistence lacunarity : ℚ)
    (repeatx repeaty repeatz base : Int) (s : Fbm) : Fbm :=
  { total := s.total +
      noise3 PERM GRAD3 (x * s.freq) (y * s.freq) (z * s.freq)
        (c_int ((repeatx : ℚ) * s.freq)) (c_int ((repeaty : ℚ) * s.freq))
        (c_int ((repeatz : ℚ) * s.freq)) base * s.amp
    max := s.max + s.amp
    freq := s.freq * lacunarity
    amp := s.amp * persistence }

/-- The entry point `py_noise3` (Python `noise3`). -/
def py_noise3 (PERM : Int → Int) (GRAD3 : Int → Int → ℚ) (x y z : ℚ) (octaves : Int)
    (persistence lacunarity : ℚ) (repeatx repeaty repeatz base : Int) : PyResult ℚ :=
  if octaves = 1 then
    PyResult.ok (noise3 PERM GRAD3 x y z repeatx repeaty repeatz base)
  else if octaves > 1 then
    let s := (octave3 PERM GRAD3 x y z persistence lacunarity repeatx repeaty repeatz
      base)^[c_count octaves] {}
    PyResult.ok (s.total / s.max)
  else
    PyResult.valueError "Expected octaves value > 0"

/-- One pass of the octave loop of `py_arr_noise3`: the sample coordinates `loop_x`, `loop_y`,
`loop_z` are `int` locals and the periods are `float` locals. -/
def arr_octave3 (PERM : Int → Int) (GRAD3 : Int → Int → ℚ) (loop_x loop_y loop_z : Int)
    (persistence lacunarity repeatx repeaty repeatz : ℚ) (base : Int) (s : Fbm) : Fbm :=
  { total := s.total +
      noise3 PERM GRAD3 ((loop_x : ℚ) * s.freq) ((loop_y : ℚ) * s.freq)
        ((loop_z : ℚ) * s.freq)
        (c_int (repeatx * s.freq)) (c_int (repeaty * s.freq)) (c_int (repeatz * s.freq))
        base * s.amp
    max := s.max + s.amp
    freq := s.freq * lacunarity
    amp := s.amp * persistence }

/-- The entry point `py_arr_noise3` (Python `noisearr3`). The periods are `float` locals,
converted to `int` where they are passed to `noise3`. -/
def py_arr_noise3 (PERM : Int → Int) (GRAD3 : Int → Int → ℚ) (x y z : ℚ)
    (x_size y_size z_size : Int) (x_res y_res z_res : ℚ) (octaves : Int)
    (persistence lacunarity repeatx repeaty repeatz : ℚ) (base : Int) : PyResult NpArray :=
  if octaves ≤ 0 then
    PyResult.valueError "Expected octaves value > 0"
  else if octaves = 1 then
    PyResult.ok
      { dims := [x_size, y_size, z_size]
        writes := (List.range (c_count z_size)).flatMap fun (i : Nat) =>
          let planeIndex := x_size * y_size * (i : Int)
          (List.range (c_count y_size)).flatMap fun (j : Nat) =>
            let rowIndex := y_size * (j : Int)
            (List.range (c_count z_size)).map fun (k : Nat) =>
              (planeIndex + rowIndex + (k : Int),
                noise3 PERM GRAD3 (x + (k : ℚ) / x_res) (y + (j : ℚ) / y_res)
                  (z + (i : ℚ) / z_res) (c_int repeatx) (c_int repeaty) (c_int repeatz)
                  base) }
  else
    PyResult.ok
      { dims := [x_size, y_size, z_size]
        writes := (List.range (c_count z_size)).flatMap fun (i : Nat) =>
          let planeIndex := x_size * y_size * (i : Int)
          (List.range (c_count y_size)).flatMap fun (j : Nat) =>
            let rowIndex := y_size * (j : Int)
            (List.range (c_count z_size)).map fun (k : Nat) =>
              let loop_x := c_int (x + (k : ℚ) / x_res)
              let loop_y := c_int (y + (j : ℚ) / y_res)
              let loop_z := c_int (z + (i : ℚ) / z_res)
              let s := (arr_octave3 PERM GRAD3 loop_x loop_y loop_z persistence lacunarity
                repeatx repeaty repeatz base)^[c_count octaves] {}
              (planeIndex + rowIndex + (k : Int), s.total / s.max) }

/-! ## Table indices read by the kernels -/

/-- The indices at which `noise1` reads the table: `PERM[i]` and `PERM[ii]`, in this order. -/
def noise1_reads (x : ℚ) (repeat_ base : Int) : Option (List Int) :=
  (c_mod (c_int (floorf x)) repeat_).bind fun i =>
  (c_mod (i + 1) repeat_).bind fun ii =>
  let i := c_and i 255 + base
  let ii := c_and ii 255 + base
  some [i, ii]

/-- The indices at which `noise2` reads the table: those of the assignments to `A`, `AA`,
`AB`, `B`, `BA`, `BB`, then those of the four `PERM[..]` arguments of `grad2`. -/
def noise2_reads (PERM : Int → Int) (x y repeatx repeaty : ℚ) (base : Int) : List Int :=
  let i := c_int (floorf (fmodf x repeatx))
  let j := c_int (floorf (fmodf y repeaty))
  let ii := c_int (fmodf ((i + 1 : Int) : ℚ) repeatx)
  let jj := c_int (fmodf ((j + 1 : Int) : ℚ) repeaty)
  let i := c_and i 255 + base
  let j := c_and j 255 + base
  let ii := c_and ii 255 + base
  let jj := c_and jj 255 + base
  let A := PERM i
  let AA := PERM (A + j)
  let AB := PERM (A + jj)
  let B := PERM ii
  let BA := PERM (B + j)
  let BB := PERM (B + jj)
  [i, A + j, A + jj, ii, B + j, B + jj, AA, BA, AB, BB]

/-- The indices at which `noise3` reads the table: those of the assignments to `A`, `AA`,
`AB`, `B`, `BA`, `BB`, then those of the eight `PERM[..]` arguments of `grad3`. -/
def noise3_reads (PERM : Int → Int) (x y z : ℚ) (repeatx repeaty repeatz base : Int) :
    List Int :=
  let i := c_int (floorf (fmodf x (repeatx : ℚ)))
  let j := c_int (floorf (fmodf y (repeaty : ℚ)))
  let k := c_int (floorf (fmodf z (repeatz : ℚ)))
  let ii := c_int (fmodf ((i + 1 : Int) : ℚ) (repeatx : ℚ))
  let jj := c_int (fmodf ((j + 1 : Int) : ℚ) (repeaty : ℚ))
  let kk := c_int (fmodf ((k + 1 : Int) : ℚ) (repeatz : ℚ))
  let i := c_and i 255 + base
  let j := c_and j 255 + base
  let k := c_and k 255 + base
  let ii := c_and ii 255 + base
  let jj := c_and jj 255 + base
  let kk := c_and kk 255 + base
  let A := PERM i
  let AA := PERM (A + j)
  let AB := PERM (A + jj)
  let B := PERM ii
  let BA := PERM (B + j)
  let BB := PERM (B + jj)
  [i, A + j, A + jj, ii, B + j, B + jj,
   AA + k, BA + k, AB + k, BB + k, AA + kk, BA + kk, AB + kk, BB + kk]

/-! ## The fade curve of the specification -/

/-- The weight the kernels assign to `fx`, `fy`, `fz` for the offset `t`:
`t*t*t * (t * (t * 6 - 15) + 10)`. -/
def fade_weight (t : ℚ) : ℚ := t * t * t * (t * (t * 6 - 15) + 10)

/-- The fade curve in the words of the specification: `6t^5 - 15t^4 + 10t^3`. -/
def fade_spec (t : ℚ) : ℚ := 6 * t ^ 5 - 15 * t ^ 4 + 10 * t ^ 3

/-! ## The tables of `_noise.h` -/

/-- Modelled from the spec: the 256 entries of the permutation table `PERM` of `_noise.h`
(not under src/), a fixed permutation of 0..255; the entries are those of the reference
permutation of improved Perlin noise. -/
def PERM_entries : List Int :=
  [151, 160, 137, 91, 90, 15, 131, 13, 201, 95, 96, 53, 194, 233, 7, 225,
   140, 36, 103, 30, 69, 142, 8, 99, 37, 240, 21, 10, 23, 190, 6, 148,
   247, 120, 234, 75, 0, 26, 197, 62, 94, 252, 219, 203, 117, 35, 11, 32,
   57, 177, 33, 88, 237, 149, 56, 87, 174, 20, 125, 136, 171, 168, 68, 175,
   74, 165, 71, 134, 139, 48, 27, 166, 77, 146, 158, 231, 83, 111, 229, 122,
   60, 211, 133, 230, 220, 105, 92, 41, 55, 46, 245, 40, 244, 102, 143, 54,
   65, 25, 63, 161, 1, 216, 80, 73, 209, 76, 132, 187, 208, 89, 18, 169,
   200, 196, 135, 130, 116, 188, 159, 86, 164, 100, 109, 198, 173, 186, 3, 64,
   52, 217, 226, 250, 124, 123, 5, 202, 38, 147, 118, 126, 255, 82, 85, 212,
   207, 206, 59, 227, 47, 16, 58, 17, 182, 189, 28, 42, 223, 183, 170, 213,
   119, 248, 152, 2, 44, 154, 163, 70, 221, 153, 101, 155, 167, 43, 172, 9,
   129, 22, 39, 253, 19, 98, 108, 110, 79, 113, 224, 232, 178, 185, 112, 104,
   218, 246, 97, 228, 251, 34, 242, 193, 238, 210, 144, 12, 191, 179, 162, 241,
   81, 51, 145, 235, 249, 14, 239, 107, 49, 192, 214, 31, 181, 199, 106, 157,
   184, 84, 204, 176, 115, 121, 50, 45, 127, 4, 150, 254, 138, 236, 205, 93,
   222, 114, 67, 29, 24, 72, 243, 141, 128, 195, 78, 66, 215, 61, 156, 180]

/-- Modelled from the spec: the table `PERM` of `_noise.h` (not under src/), the permutation
replicated once so that the indices 0..511 can be read; `PERM[i]` is entry `i mod 256`.
(A read outside 0..511 is outside the C array; here it yields 0.) -/
def PERM (i : Int) : Int :=
  if 0 ≤ i ∧ i < 512 then PERM_entries.getD (i % 256).toNat 0 else 0

/-- Modelled from the spec: the 16 gradient directions of the table `GRAD3` of `_noise.h`
(not under src/), each component in -1, 0, 1. -/
def GRAD3_entries : List (List ℚ) :=
  [[1, 1, 0], [-1, 1, 0], [1, -1, 0], [-1, -1, 0],
   [1, 0, 1], [-1, 0, 1], [1, 0, -1], [-1, 0, -1],
   [0, 1, 1], [0, -1, 1], [0, 1, -1], [0, -1, -1],
   [1, 0, -1], [-1, 0, -1], [0, -1, 1], [0, 1, 1]]

/-- Modelled from the spec: the table `GRAD3` of `_noise.h` (not under src/);
`GRAD3 h c` is the entry `GRAD3[h][c]`. -/
def GRAD3 (h c : Int) : ℚ :=
  (GRAD3_entries.getD h.toNat []).getD c.toNat 0

/-! ## Lemmas on the C primitives -/

theorem c_int_intCast (n : Int) : c_int (n : ℚ) = n := by
  unfold c_int
  split_ifs
  · exact Int.floor_intCast _
  · exact Int.ceil_intCast _

theorem c_int_floorf (x : ℚ) : c_int (floorf x) = ⌊x⌋ := by
  unfold floorf
  exact c_int_intCast _

theorem c_int_of_nonneg {x : ℚ} (h : 0 ≤ x) : c_int x = ⌊x⌋ := by
  simp [c_int, h]

theorem c_mod_of_ne (a : Int) {b : Int} (h : b ≠ 0) : c_mod a b = some (Int.tmod a b) := by
  simp [c_mod, h]

theorem c_mod_zero (a : Int) : c_mod a 0 = none := by
  simp [c_mod]

theorem ldiff_mask (k m : Nat) : Nat.ldiff (2 ^ k - 1) m = 2 ^ k - 1 - m % 2 ^ k := by
  have hr : m % 2 ^ k < 2 ^ k := Nat.mod_lt _ (by positivity)
  apply Nat.eq_of_testBit_eq
  intro i
  have e : 2 ^ k - 1 - m % 2 ^ k = 2 ^ k - (m % 2 ^ k + 1) := by omega
  rw [Nat.testBit_ldiff, e, Nat.testBit_two_pow_sub_succ hr, Nat.testBit_two_pow_sub_one,
    Nat.testBit_mod_two_pow]
  by_cases hi : i < k <;> simp [hi]

theorem neg_succ_emod (m P : Nat) (hp : 0 < P) :
    (-((m : Int) + 1)) % (P : Int) = (P : Int) - 1 - (m : Int) % P := by
  have hr0 : 0 ≤ (m : Int) % P := Int.emod_nonneg _ (by omega)
  have hr1 : (m : Int) % P < P := Int.emod_lt_of_pos _ (by omega)
  have hd := Int.emod_add_ediv (m : Int) (P : Int)
  have e : -((m : Int) + 1) = ((P : Int) - 1 - (m : Int) % P) + P * (-((m : Int) / P) - 1) := by
    linarith
  rw [e, Int.add_mul_emod_self_left, Int.emod_eq_of_lt (by omega) (by omega)]

/-- Masking with `2 ^ k - 1` is the non-negative remainder modulo `2 ^ k`, also for negative
two-complement values. -/
theorem c_and_mask (k : Nat) (i : Int) :
    c_and i ((2 ^ k - 1 : Nat) : Int) = i % ((2 ^ k : Nat) : Int) := by
  unfold c_and
  cases i with
  | ofNat n =>
    show ((n &&& (2 ^ k - 1) : Nat) : Int) = _
    rw [Nat.and_pow_two_sub_one_eq_mod]
    norm_num
  | negSucc m =>
    show ((Nat.ldiff (2 ^ k - 1) m : Nat) : Int) = _
    have hp : 0 < 2 ^ k := by positivity
    have hr : m % 2 ^ k < 2 ^ k := Nat.mod_lt _ hp
    rw [ldiff_mask, Int.negSucc_eq, neg_succ_emod m (2 ^ k) hp]
    omega

theorem c_and_255 (i : Int) : c_and i 255 = i % 256 := c_and_mask 8 i

theorem c_and_7 (i : Int) : c_and i 7 = i % 8 := c_and_mask 3 i

theorem c_and_15 (i : Int) : c_and i 15 = i % 16 := c_and_mask 4 i

/-! ## The kernel `noise1` -/

/-- The kernel `noise1` for a non-zero period, with the masks written as remainders. -/
theorem noise1_of_ne (PERM : Int → Int) (x : ℚ) {R : Int} (base : Int) (hR : R ≠ 0) :
    noise1 PERM x R base =
      some (lerp ((x - ⌊x⌋) * (x - ⌊x⌋) * (x - ⌊x⌋) * ((x - ⌊x⌋) * ((x - ⌊x⌋) * 6 - 15) + 10))
        (grad1 (PERM (Int.tmod ⌊x⌋ R % 256 + base)) (x - ⌊x⌋))
        (grad1 (PERM (Int.tmod (Int.tmod ⌊x⌋ R + 1) R % 256 + base)) (x - ⌊x⌋ - 1))
        * (2 / 5)) := by
  simp [noise1, c_int_intCast, c_mod_of_ne _ hR, c_and_255, floorf]

theorem noise1_zero_period (PERM : Int → Int) (x : ℚ) (base : Int) :
    noise1 PERM x 0 base = none := by
  simp [noise1, c_mod_zero]

/-- Periodicity of `noise1` on non-negative coordinates. -/
theorem noise1_add_period (PERM : Int → Int) {x : ℚ} {R : Int} (base : Int) (hx : 0 ≤ x)
    (hR : 0 < R) : noise1 PERM (x + R) R base = noise1 PERM x R base := by
  have hf : 0 ≤ ⌊x⌋ := Int.floor_nonneg.mpr hx
  have e : Int.tmod (⌊x⌋ + R) R = Int.tmod ⌊x⌋ R := by
    rw [Int.tmod_eq_emod (by omega) hR.le, Int.tmod_eq_emod hf hR.le, Int.add_emod_self]
  rw [noise1_of_ne PERM _ base hR.ne', noise1_of_ne PERM _ base hR.ne', Int.floor_add_int, e]
  have t : x + (R : ℚ) - ((⌊x⌋ + R : Int) : ℚ) = x - (⌊x⌋ : ℚ) := by push_cast; ring
  rw [t]

theorem grad1_pos (hash : Int) (x : ℚ) (h : c_and hash 8 = 0) :
    grad1 hash x = (((hash % 8 : Int) : ℚ) + 1) * x := by
  simp [grad1, h, c_and_7]

theorem grad1_neg (hash : Int) (x : ℚ) (h : c_and hash 8 ≠ 0) : grad1 hash x = -x := by
  simp [grad1, h]


theorem c_int_eq_of_nonneg {x : ℚ} {n : Int} (h0 : 0 ≤ x) (h1 : (n : ℚ) ≤ x)
    (h2 : x < (n : ℚ) + 1) : c_int x = n := by
  rw [c_int_of_nonneg h0]
  exact Int.floor_eq_iff.mpr ⟨h1, h2⟩

theorem c_int_eq_of_neg {x : ℚ} {n : Int} (h0 : x < 0) (h1 : (n : ℚ) - 1 < x)
    (h2 : x ≤ (n : ℚ)) : c_int x = n := by
  unfold c_int
  rw [if_neg (not_le.mpr h0)]
  exact Int.ceil_eq_iff.mpr ⟨h1, h2⟩

theorem fmodf_eq {x y : ℚ} (n : Int) (h : c_int (x / y) = n) : fmodf x y = x - (n : ℚ) * y := by
  unfold fmodf
  rw [h]

/-- The kernel `noise3` once the six cell indices are known. -/
theorem noise3_cells (PERM : Int → Int) (GRAD3 : Int → Int → ℚ) (x y z : ℚ)
    (Rx Ry Rz base i j k ii jj kk : Int)
    (hi : c_int (floorf (fmodf x (Rx : ℚ))) = i)
    (hj : c_int (floorf (fmodf y (Ry : ℚ))) = j)
    (hk : c_int (floorf (fmodf z (Rz : ℚ))) = k)
    (hii : c_int (fmodf ((i + 1 : Int) : ℚ) (Rx : ℚ)) = ii)
    (hjj : c_int (fmodf ((j + 1 : Int) : ℚ) (Ry : ℚ)) = jj)
    (hkk : c_int (fmodf ((k + 1 : Int) : ℚ) (Rz : ℚ)) = kk) :
    noise3 PERM GRAD3 x y z Rx Ry Rz base =
      lerp ((z - floorf z) * (z - floorf z) * (z - floorf z) *
              ((z - floorf z) * ((z - floorf z) * 6 - 15) + 10))
        (lerp ((y - floorf y) * (y - floorf y) * (y - floorf y) *
                ((y - floorf y) * ((y - floorf y) * 6 - 15) + 10))
          (lerp ((x - floorf x) * (x - floorf x) * (x - floorf x) *
                  ((x - floorf x) * ((x - floorf x) * 6 - 15) + 10))
            (grad3 GRAD3 (PERM (PERM (PERM (i % 256 + base) + (j % 256 + base))
              + (k % 256 + base))) (x - floorf x) (y - floorf y) (z - floorf z))
            (grad3 GRAD3 (PERM (PERM (PERM (ii % 256 + base) + (j % 256 + base))
              + (k % 256 + base))) (x - floorf x - 1) (y - floorf y) (z - floorf z)))
          (lerp ((x - floorf x) * (x - floorf x) * (x - floorf x) *
                  ((x - floorf x) * ((x - floorf x) * 6 - 15) + 10))
            (grad3 GRAD3 (PERM (PERM (PERM (i % 256 + base) + (jj % 256 + base))
              + (k % 256 + base))) (x - floorf x) (y - floorf y - 1) (z - floorf z))
            (grad3 GRAD3 (PERM (PERM (PERM (ii % 256 + base) + (jj % 256 + base))
              + (k % 256 + base))) (x - floorf x - 1) (y - floorf y - 1) (z - floorf z))))
        (lerp ((y - floorf y) * (y - floorf y) * (y - floorf y) *
                ((y - floorf y) * ((y - floorf y) * 6 - 15) + 10))
          (lerp ((x - floorf x) * (x - floorf x) * (x - floorf x) *
                  ((x - floorf x) * ((x - floorf x) * 6 - 15) + 10))
            (grad3 GRAD3 (PERM (PERM (PERM (i % 256 + base) + (j % 256 + base))
              + (kk % 256 + base))) (x - floorf x) (y - floorf y) (z - floorf z - 1))
            (grad3 GRAD3 (PERM (PERM (PERM (ii % 256 + base) + (j % 256 + base))
              + (kk % 256 + base))) (x - floorf x - 1) (y - floorf y) (z - floorf z - 1)))
          (lerp ((x - floorf x) * (x - floorf x) * (x - floorf x) *
                  ((x - floorf x) * ((x - floorf x) * 6 - 15) + 10))
            (grad3 GRAD3 (PERM (PERM (PERM (i % 256 + base) + (jj % 256 + base))
              + (kk % 256 + base))) (x - floorf x) (y - floorf y - 1) (z - floorf z - 1))
            (grad3 GRAD3 (PERM (PERM (PERM (ii % 256 + base) + (jj % 256 + base))
              + (kk % 256 + base))) (x - floorf x - 1) (y - floorf y - 1)
              (z - floorf z - 1)))) := by
  subst hi hj hk hii hjj hkk
  simp only [noise3, c_and_255]

theorem fmodf_zero_left (y : ℚ) : fmodf 0 y = 0 := by
  simp [fmodf, c_int]

theorem floorf_zero : floorf 0 = 0 := by
  simp [floorf]

theorem cell_zero (R : Int) : c_int (floorf (fmodf 0 (R : ℚ))) = 0 := by
  rw [fmodf_zero_left, c_int_floorf, Int.floor_zero]

theorem next_one_three : c_int (fmodf (((0 : Int) + 1 : Int) : ℚ) ((3 : Int) : ℚ)) = 1 := by
  rw [fmodf_eq 0 (c_int_eq_of_nonneg (by norm_num) (by norm_num) (by norm_num))]
  exact c_int_eq_of_nonneg (by norm_num) (by norm_num) (by norm_num)

theorem grad3_eval (hash h : Int) (x y z : ℚ) (hh : hash % 16 = h) :
    grad3 GRAD3 hash x y z = x * GRAD3 h 0 + y * GRAD3 h 1 + z * GRAD3 h 2 := by
  subst hh
  simp only [grad3, c_and_15]

/-! ## C1, C2: the period across zero -/

theorem floor_neg_half : ⌊(-1 / 2 : ℚ)⌋ = -1 := by norm_num

theorem floor_five_half : ⌊(5 / 2 : ℚ)⌋ = 2 := by norm_num

/-- C1: with period 3 and base 0 the kernel `noise1` yields -3/10 at x = -1/2 but -9/10 one
period further, at x + 3 = 5/2: left of zero the cell index `(int)floorf(x) % repeat` is the
negative remainder -1, masked to 255, where the periodic image of cell 2 was due. -/
theorem noise1_period_fails_across_zero :
    noise1 PERM (-1 / 2) 3 0 = some (-3 / 10) ∧
      noise1 PERM (-1 / 2 + 3) 3 0 = some (-9 / 10) := by
  have e : (-1 / 2 + 3 : ℚ) = 5 / 2 := by norm_num
  have p255 : PERM 255 = 180 := by decide
  have p0 : PERM 0 = 151 := by decide
  have p2 : PERM 2 = 137 := by decide
  constructor
  · rw [noise1_of_ne PERM _ 0 (by decide), floor_neg_half,
      show Int.tmod (-1) 3 % 256 + 0 = 255 by decide,
      show Int.tmod (Int.tmod (-1) 3 + 1) 3 % 256 + 0 = 0 by decide, p255, p0,
      grad1_pos 180 _ (by decide), grad1_pos 151 _ (by decide)]
    norm_num [lerp]
  · rw [e, noise1_of_ne PERM _ 0 (by decide), floor_five_half,
      show Int.tmod 2 3 % 256 + 0 = 2 by decide,
      show Int.tmod (Int.tmod 2 3 + 1) 3 % 256 + 0 = 0 by decide, p2, p0,
      grad1_neg 137 _ (by decide), grad1_pos 151 _ (by decide)]
    norm_num [lerp]

theorem cell_neg_half : c_int (floorf (fmodf (-1 / 2) ((3 : Int) : ℚ))) = -1 := by
  rw [fmodf_eq 0 (c_int_eq_of_neg (by norm_num) (by norm_num) (by norm_num)), c_int_floorf]
  norm_num

theorem cell_five_half : c_int (floorf (fmodf (5 / 2) ((3 : Int) : ℚ))) = 2 := by
  rw [fmodf_eq 0 (c_int_eq_of_nonneg (by norm_num) (by norm_num) (by norm_num)), c_int_floorf]
  norm_num

theorem next_after_neg_one : c_int (fmodf (((-1 : Int) + 1 : Int) : ℚ) ((3 : Int) : ℚ)) = 0 := by
  rw [fmodf_eq 0 (c_int_eq_of_nonneg (by norm_num) (by norm_num) (by norm_num))]
  exact c_int_eq_of_nonneg (by norm_num) (by norm_num) (by norm_num)

theorem next_after_two : c_int (fmodf (((2 : Int) + 1 : Int) : ℚ) ((3 : Int) : ℚ)) = 0 := by
  rw [fmodf_eq 1 (c_int_eq_of_nonneg (by norm_num) (by norm_num) (by norm_num))]
  exact c_int_eq_of_nonneg (by norm_num) (by norm_num) (by norm_num)

theorem floorf_neg_half : floorf (-1 / 2) = -1 := by norm_num [floorf]

theorem floorf_five_half : floorf (5 / 2) = 2 := by norm_num [floorf]

theorem noise3_x_left : noise3 PERM GRAD3 (-1 / 2) 0 0 3 3 3 0 = -1 / 4 := by
  have h0 : PERM (PERM (PERM (-1 % 256 + 0) + (0 % 256 + 0)) + (0 % 256 + 0)) % 16 = 14 := by
    decide
  have h1 : PERM (PERM (PERM (0 % 256 + 0) + (0 % 256 + 0)) + (0 % 256 + 0)) % 16 = 4 := by
    decide
  rw [noise3_cells PERM GRAD3 _ _ _ _ _ _ _ (-1) 0 0 0 1 1 cell_neg_half (cell_zero 3)
    (cell_zero 3) next_after_neg_one next_one_three next_one_three, floorf_zero,
    floorf_neg_half, grad3_eval _ 14 _ _ _ h0, grad3_eval _ 4 _ _ _ h1,
    show GRAD3 14 0 = 0 from rfl, show GRAD3 4 0 = 1 from rfl]
  norm_num [lerp]

theorem noise3_x_right : noise3 PERM GRAD3 (5 / 2) 0 0 3 3 3 0 = -1 / 2 := by
  have h0 : PERM (PERM (PERM (2 % 256 + 0) + (0 % 256 + 0)) + (0 % 256 + 0)) % 16 = 3 := by
    decide
  have h1 : PERM (PERM (PERM (0 % 256 + 0) + (0 % 256 + 0)) + (0 % 256 + 0)) % 16 = 4 := by
    decide
  rw [noise3_cells PERM GRAD3 _ _ _ _ _ _ _ 2 0 0 0 1 1 cell_five_half (cell_zero 3)
    (cell_zero 3) next_after_two next_one_three next_one_three, floorf_zero,
    floorf_five_half, grad3_eval _ 3 _ _ _ h0, grad3_eval _ 4 _ _ _ h1,
    show GRAD3 3 0 = -1 from rfl, show GRAD3 4 0 = 1 from rfl]
  norm_num [lerp]

theorem noise3_y_left : noise3 PERM GRAD3 0 (-1 / 2) 0 3 3 3 0 = 0 := by
  have h0 : PERM (PERM (PERM (0 % 256 + 0) + (-1 % 256 + 0)) + (0 % 256 + 0)) % 16 = 13 := by
    decide
  have h1 : PERM (PERM (PERM (0 % 256 + 0) + (0 % 256 + 0)) + (0 % 256 + 0)) % 16 = 4 := by
    decide
  rw [noise3_cells PERM GRAD3 _ _ _ _ _ _ _ 0 (-1) 0 1 0 1 (cell_zero 3) cell_neg_half
    (cell_zero 3) next_one_three next_after_neg_one next_one_three, floorf_zero,
    floorf_neg_half, grad3_eval _ 13 _ _ _ h0, grad3_eval _ 4 _ _ _ h1,
    show GRAD3 13 1 = 0 from rfl, show GRAD3 4 1 = 0 from rfl]
  norm_num [lerp]

theorem noise3_y_right : noise3 PERM GRAD3 0 (5 / 2) 0 3 3 3 0 = -1 / 4 := by
  have h0 : PERM (PERM (PERM (0 % 256 + 0) + (2 % 256 + 0)) + (0 % 256 + 0)) % 16 = 9 := by
    decide
  have h1 : PERM (PERM (PERM (0 % 256 + 0) + (0 % 256 + 0)) + (0 % 256 + 0)) % 16 = 4 := by
    decide
  rw [noise3_cells PERM GRAD3 _ _ _ _ _ _ _ 0 2 0 1 0 1 (cell_zero 3) cell_five_half
    (cell_zero 3) next_one_three next_after_two next_one_three, floorf_zero,
    floorf_five_half, grad3_eval _ 9 _ _ _ h0, grad3_eval _ 4 _ _ _ h1,
    show GRAD3 9 1 = -1 from rfl, show GRAD3 4 1 = 0 from rfl]
  norm_num [lerp]

theorem noise3_z_left : noise3 PERM GRAD3 0 0 (-1 / 2) 3 3 3 0 = -1 / 2 := by
  have h0 : PERM (PERM (PERM (0 % 256 + 0) + (0 % 256 + 0)) + (-1 % 256 + 0)) % 16 = 12 := by
    decide
  have h1 : PERM (PERM (PERM (0 % 256 + 0) + (0 % 256 + 0)) + (0 % 256 + 0)) % 16 = 4 := by
    decide
  rw [noise3_cells PERM GRAD3 _ _ _ _ _ _ _ 0 0 (-1) 1 1 0 (cell_zero 3) (cell_zero 3)
    cell_neg_half next_one_three next_one_three next_after_neg_one, floorf_zero,
    floorf_neg_half, grad3_eval _ 12 _ _ _ h0, grad3_eval _ 4 _ _ _ h1,
    show GRAD3 12 2 = -1 from rfl, show GRAD3 4 2 = 1 from rfl]
  norm_num [lerp]

theorem noise3_z_right : noise3 PERM GRAD3 0 0 (5 / 2) 3 3 3 0 = 0 := by
  have h0 : PERM (PERM (PERM (0 % 256 + 0) + (0 % 256 + 0)) + (2 % 256 + 0)) % 16 = 14 := by
    decide
  have h1 : PERM (PERM (PERM (0 % 256 + 0) + (0 % 256 + 0)) + (0 % 256 + 0)) % 16 = 4 := by
    decide
  rw [noise3_cells PERM GRAD3 _ _ _ _ _ _ _ 0 0 2 1 1 0 (cell_zero 3) (cell_zero 3)
    cell_five_half next_one_three next_one_three next_after_two, floorf_zero,
    floorf_five_half, grad3_eval _ 14 _ _ _ h0, grad3_eval _ 4 _ _ _ h1,
    show GRAD3 14 2 = 1 from rfl, show GRAD3 4 2 = 1 from rfl]
  norm_num [lerp]

/-- C2: with periods 3, 3, 3 and base 0 the kernel `noise3` changes when one coordinate moves
from -1/2 to -1/2 + 3, on each axis: -1/4 becomes -1/2 along x, 0 becomes -1/4 along y and
-1/2 becomes 0 along z. Left of zero `floorf(fmodf(coord, repeat))` is -1, masked to 255. -/
theorem noise3_period_fails_across_zero :
    (noise3 PERM GRAD3 (-1 / 2) 0 0 3 3 3 0 = -1 / 4 ∧
      noise3 PERM GRAD3 (-1 / 2 + 3) 0 0 3 3 3 0 = -1 / 2) ∧
    (noise3 PERM GRAD3 0 (-1 / 2) 0 3 3 3 0 = 0 ∧
      noise3 PERM GRAD3 0 (-1 / 2 + 3) 0 3 3 3 0 = -1 / 4) ∧
    (noise3 PERM GRAD3 0 0 (-1 / 2) 3 3 3 0 = -1 / 2 ∧
      noise3 PERM GRAD3 0 0 (-1 / 2 + 3) 3 3 3 0 = 0) := by
  have e : (-1 / 2 + 3 : ℚ) = 5 / 2 := by norm_num
  rw [e]
  exact ⟨⟨noise3_x_left, noise3_x_right⟩, ⟨noise3_y_left, noise3_y_right⟩,
    ⟨noise3_z_left, noise3_z_right⟩⟩

/-! ## C3, C4: the octave loop of `py_noise1` -/

theorem noise1_isSome (PERM : Int → Int) (x : ℚ) {R : Int} (base : Int) (hR : R ≠ 0) :
    noise1 PERM x R base = some ((noise1 PERM x R base).getD 0) := by
  rw [noise1_of_ne PERM x base hR]
  rfl

/-- State of the octave loop of `py_noise1` after `n` passes, while no pass sees period 0. -/
theorem c_loop_octave1 (PERM : Int → Int) (x p l : ℚ) (R base : Int) (n : Nat)
    (h : ∀ k : Nat, k < n → c_int ((R : ℚ) * l ^ k) ≠ 0) :
    c_loop (octave1 PERM x p l R base) n {} =
      some { freq := l ^ n
             amp := p ^ n
             max := ∑ k ∈ Finset.range n, p ^ k
             total := ∑ k ∈ Finset.range n,
               (noise1 PERM (x * l ^ k) (c_int ((R : ℚ) * l ^ k)) base).getD 0 * p ^ k } := by
  induction n with
  | zero => simp [c_loop]
  | succ n ih =>
    rw [c_loop, ih fun k hk => h k (Nat.lt_succ_of_lt hk)]
    simp only [Option.some_bind, octave1]
    rw [noise1_isSome PERM _ base (h n (Nat.lt_succ_self n))]
    simp only [Option.map_some', Finset.sum_range_succ, pow_succ]

/-- The octave loop hits period 0 in pass `n` when the earlier passes do not. -/
theorem c_loop_octave1_none (PERM : Int → Int) (x p l : ℚ) (R base : Int) (n : Nat)
    (h : ∀ k : Nat, k < n → c_int ((R : ℚ) * l ^ k) ≠ 0) (h0 : c_int ((R : ℚ) * l ^ n) = 0) :
    c_loop (octave1 PERM x p l R base) (n + 1) {} = none := by
  rw [c_loop, c_loop_octave1 PERM x p l R base n h]
  simp [octave1, h0, noise1_zero_period]

theorem py_noise1_one (PERM : Int → Int) (x p l : ℚ) (R base : Int) :
    py_noise1 PERM x 1 p l R base = PyResult.ofOption (noise1 PERM x R base) := by
  simp [py_noise1]

theorem py_noise1_many (PERM : Int → Int) (x p l : ℚ) (R base : Int) (n : Nat) (hn : 2 ≤ n) :
    py_noise1 PERM x (n : Int) p l R base =
      PyResult.ofOption ((c_loop (octave1 PERM x p l R base) n {}).map
        fun s => s.total / s.max) := by
  have h1 : ¬ ((n : Int) = 1) := by omega
  have h2 : (n : Int) > 1 := by omega
  simp [py_noise1, h1, h2, c_count]

/-- Closed form of `py_noise1` for `n ≥ 1` octaves, while no octave sees period 0. -/
theorem py_noise1_closed (PERM : Int → Int) (x p l : ℚ) (R base : Int) (n : Nat) (hn : 1 ≤ n)
    (h : ∀ k : Nat, k < n → c_int ((R : ℚ) * l ^ k) ≠ 0) :
    py_noise1 PERM x (n : Int) p l R base =
      PyResult.ok ((∑ k ∈ Finset.range n,
          (noise1 PERM (x * l ^ k) (c_int ((R : ℚ) * l ^ k)) base).getD 0 * p ^ k) /
        ∑ k ∈ Finset.range n, p ^ k) := by
  rcases Nat.lt_or_ge n 2 with h2 | h2
  · have e : n = 1 := by omega
    subst e
    have h0 : R ≠ 0 := by
      have := h 0 (by omega)
      simpa [c_int_intCast] using this
    rw [Nat.cast_one, py_noise1_one, noise1_of_ne PERM x base h0]
    simp [PyResult.ofOption, c_int_intCast, noise1_of_ne PERM x base h0]
  · rw [py_noise1_many PERM x p l R base n h2, c_loop_octave1 PERM x p l R base n h]
    rfl

theorem noise1_eval (PERM : Int → Int) (x : ℚ) (R base c i ii : Int) (hR : R ≠ 0)
    (hc : ⌊x⌋ = c) (hi : Int.tmod c R % 256 + base = i)
    (hii : Int.tmod (Int.tmod c R + 1) R % 256 + base = ii) :
    noise1 PERM x R base =
      some (lerp ((x - c) * (x - c) * (x - c) * ((x - c) * ((x - c) * 6 - 15) + 10))
        (grad1 (PERM i) (x - c)) (grad1 (PERM ii) (x - c - 1)) * (2 / 5)) := by
  subst hc hi hii
  exact noise1_of_ne PERM x base hR

theorem PERM_0 : PERM 0 = 151 := by decide

theorem PERM_1 : PERM 1 = 160 := by decide

theorem PERM_2 : PERM 2 = 137 := by decide

theorem noise1_half_3 : noise1 PERM (1 / 2) 3 0 = some (7 / 10) := by
  rw [noise1_eval PERM _ 3 0 0 0 1 (by decide) (by norm_num) (by decide) (by decide), PERM_0,
    PERM_1, grad1_pos 151 _ (by decide), grad1_pos 160 _ (by decide)]
  norm_num [lerp]

theorem noise1_seven_half_3 : noise1 PERM (7 / 2) 3 0 = some (7 / 10) := by
  rw [noise1_eval PERM _ 3 0 3 0 1 (by decide) (by norm_num) (by decide) (by decide), PERM_0,
    PERM_1, grad1_pos 151 _ (by decide), grad1_pos 160 _ (by decide)]
  norm_num [lerp]

theorem noise1_three_quarter_4 : noise1 PERM (3 / 4) 4 0 = some (813 / 5120) := by
  rw [noise1_eval PERM _ 4 0 0 0 1 (by decide) (by norm_num) (by decide) (by decide), PERM_0,
    PERM_1, grad1_pos 151 _ (by decide), grad1_pos 160 _ (by decide)]
  norm_num [lerp]

theorem noise1_twenty_one_quarter_4 : noise1 PERM (21 / 4) 4 0 = some (309 / 2560) := by
  rw [noise1_eval PERM _ 4 0 5 1 2 (by decide) (by norm_num) (by decide) (by decide), PERM_1,
    PERM_2, grad1_pos 160 _ (by decide), grad1_neg 137 _ (by decide)]
  norm_num [lerp]

theorem periods_3_threehalves (k : Nat) (hk : k < 2) :
    c_int (((3 : Int) : ℚ) * (3 / 2) ^ k) ≠ 0 := by
  interval_cases k
  · rw [c_int_eq_of_nonneg (n := 3) (by norm_num) (by norm_num) (by norm_num)]
    decide
  · rw [c_int_eq_of_nonneg (n := 4) (by norm_num) (by norm_num) (by norm_num)]
    decide

theorem period_3_threehalves_one : c_int (((3 : Int) : ℚ) * (3 / 2) ^ 1) = 4 :=
  c_int_eq_of_nonneg (by norm_num) (by norm_num) (by norm_num)

/-- C3 (amended): for `n ≥ 1` octaves, when the period handed to each octave `k`, which is
`(int)(repeat * l ^ k)` (the product truncated toward zero), is not zero, `py_noise1` returns
`total / norm` with `total` the sum over `k < n` of
`noise1(x * l ^ k, (int)(repeat * l ^ k), base) * p ^ k` and `norm` the sum of `p ^ k`. -/
theorem py_noise1_fbm_formula (PERM : Int → Int) (x p l : ℚ) (R base : Int) (n : Nat)
    (hn : 1 ≤ n) (h : ∀ k : Nat, k < n → c_int ((R : ℚ) * l ^ k) ≠ 0) :
    ∃ v : Nat → ℚ,
      (∀ k : Nat, k < n →
        noise1 PERM (x * l ^ k) (c_int ((R : ℚ) * l ^ k)) base = some (v k)) ∧
      py_noise1 PERM x (n : Int) p l R base =
        PyResult.ok ((∑ k ∈ Finset.range n, v k * p ^ k) / ∑ k ∈ Finset.range n, p ^ k) :=
  ⟨fun k => (noise1 PERM (x * l ^ k) (c_int ((R : ℚ) * l ^ k)) base).getD 0,
    fun k hk => noise1_isSome PERM _ base (h k hk), py_noise1_closed PERM x p l R base n hn h⟩

/-- C3 witness: two octaves at x = 1/2 with persistence 1/2, lacunarity 3/2 and period 3. -/
theorem py_noise1_fbm_formula_witness :
    (1 ≤ 2 ∧ ∀ k : Nat, k < 2 → c_int (((3 : Int) : ℚ) * (3 / 2) ^ k) ≠ 0) ∧
    ∃ v : Nat → ℚ,
      (∀ k : Nat, k < 2 →
        noise1 PERM (1 / 2 * (3 / 2) ^ k) (c_int (((3 : Int) : ℚ) * (3 / 2) ^ k)) 0
          = some (v k)) ∧
      py_noise1 PERM (1 / 2) ((2 : Nat) : Int) (1 / 2) (3 / 2) 3 0 =
        PyResult.ok ((∑ k ∈ Finset.range 2, v k * (1 / 2) ^ k) /
          ∑ k ∈ Finset.range 2, (1 / 2 : ℚ) ^ k) :=
  ⟨⟨by decide, periods_3_threehalves⟩,
    py_noise1_fbm_formula PERM (1 / 2) (1 / 2) (3 / 2) 3 0 2 (by decide) periods_3_threehalves⟩

/-- C3 counterexample: with period 0 the single-octave call computes `(int)floorf(x) % 0`, so
`py_noise1` returns no value; and for period 3 and lacunarity 3/2 the period handed to
octave 1 is 4, not 3 * 3/2. -/
theorem py_noise1_formula_fails :
    py_noise1 PERM 0 1 (1 / 2) 2 0 0 = PyResult.undefined ∧
      ((c_int (((3 : Int) : ℚ) * (3 / 2) ^ 1) : Int) : ℚ) ≠ ((3 : Int) : ℚ) * (3 / 2) ^ 1 := by
  constructor
  · rw [py_noise1_one, noise1_zero_period]
    rfl
  · rw [period_3_threehalves_one]
    norm_num

theorem py_noise1_threehalves_at (x a b : ℚ) (ha : noise1 PERM x 3 0 = some a)
    (hb : noise1 PERM (x * (3 / 2)) 4 0 = some b) :
    py_noise1 PERM x 2 (1 / 2) (3 / 2) 3 0 = PyResult.ok ((a + b * (1 / 2)) / (3 / 2)) := by
  have e := py_noise1_closed PERM x (1 / 2) (3 / 2) 3 0 2 (by decide) periods_3_threehalves
  have e3 : c_int (((3 : Int) : ℚ) * (3 / 2) ^ 0) = 3 :=
    c_int_eq_of_nonneg (by norm_num) (by norm_num) (by norm_num)
  rw [Finset.sum_range_succ, Finset.sum_range_one, Finset.sum_range_succ, Finset.sum_range_one,
    period_3_threehalves_one, e3, pow_zero, pow_one, mul_one, ha, hb] at e
  rw [show ((2 : Int)) = ((2 : Nat) : Int) from rfl, e]
  norm_num

/-- C4 counterexample: two octaves with persistence 1/2, lacunarity 3/2 and period 3 give
7981/15360 at x = 1/2 and 3893/7680 at x + 3: octave 1 runs at x * 3/2 with the truncated
period 4, while the shift by 3 moves its coordinate by 9/2. -/
theorem py_noise1_tile_fails :
    py_noise1 PERM (1 / 2) 2 (1 / 2) (3 / 2) 3 0 = PyResult.ok (7981 / 15360) ∧
      py_noise1 PERM (1 / 2 + 3) 2 (1 / 2) (3 / 2) 3 0 = PyResult.ok (3893 / 7680) := by
  constructor
  · rw [py_noise1_threehalves_at (1 / 2) (7 / 10) (813 / 5120) noise1_half_3
      (by rw [show (1 / 2 * (3 / 2) : ℚ) = 3 / 4 by norm_num]; exact noise1_three_quarter_4)]
    norm_num
  · rw [show (1 / 2 + 3 : ℚ) = 7 / 2 by norm_num,
      py_noise1_threehalves_at (7 / 2) (7 / 10) (309 / 2560) noise1_seven_half_3
      (by rw [show (7 / 2 * (3 / 2) : ℚ) = 21 / 4 by norm_num]
          exact noise1_twenty_one_quarter_4)]
    norm_num

/-- C4 (amended): for `x ≥ 0`, `n ≥ 1` octaves, any persistence, a period `R > 0` and a
lacunarity `l` for which every scaled period `R * l ^ k`, `k < n`, is a positive integer (any
positive integer lacunarity is one), `py_noise1` returns the same value at `x + R` as at
`x`. -/
theorem py_noise1_tile (PERM : Int → Int) (x p l : ℚ) (R base : Int) (n : Nat) (hn : 1 ≤ n)
    (hx : 0 ≤ x) (hR : 0 < R)
    (hper : ∀ k : Nat, k < n → ∃ m : Int, 0 < m ∧ (m : ℚ) = (R : ℚ) * l ^ k) :
    ∃ v : ℚ, py_noise1 PERM x (n : Int) p l R base = PyResult.ok v ∧
      py_noise1 PERM (x + (R : ℚ)) (n : Int) p l R base = PyResult.ok v := by
  have hne : ∀ k : Nat, k < n → c_int ((R : ℚ) * l ^ k) ≠ 0 := by
    intro k hk
    obtain ⟨m, hm, e⟩ := hper k hk
    rw [← e, c_int_intCast]
    exact hm.ne'
  refine ⟨_, py_noise1_closed PERM x p l R base n hn hne, ?_⟩
  rw [py_noise1_closed PERM (x + (R : ℚ)) p l R base n hn hne]
  congr 2
  apply Finset.sum_congr rfl
  intro k hk
  obtain ⟨m, hm, e⟩ := hper k (Finset.mem_range.mp hk)
  have hRq : (0 : ℚ) < (R : ℚ) := by exact_mod_cast hR
  have hmq : (0 : ℚ) < (m : ℚ) := by exact_mod_cast hm
  have hl : 0 < l ^ k := by
    by_contra hcon
    have h0 : (R : ℚ) * l ^ k ≤ 0 := by nlinarith [not_lt.mp hcon]
    linarith
  have e1 : (x + (R : ℚ)) * l ^ k = x * l ^ k + (m : ℚ) := by
    rw [e]
    ring
  rw [e1, ← e, c_int_intCast, noise1_add_period PERM base (mul_nonneg hx hl.le) hm]

/-- C4 witness: three octaves at x = 1/2 with lacunarity 2 and period 3. -/
theorem py_noise1_tile_witness :
    (1 ≤ 3 ∧ (0 : ℚ) ≤ 1 / 2 ∧ (0 : Int) < 3 ∧
      ∀ k : Nat, k < 3 → ∃ m : Int, 0 < m ∧ (m : ℚ) = ((3 : Int) : ℚ) * (2 : ℚ) ^ k) ∧
    ∃ v : ℚ, py_noise1 PERM (1 / 2) ((3 : Nat) : Int) (1 / 2) 2 3 0 = PyResult.ok v ∧
      py_noise1 PERM (1 / 2 + ((3 : Int) : ℚ)) ((3 : Nat) : Int) (1 / 2) 2 3 0
        = PyResult.ok v :=
  have hper : ∀ k : Nat, k < 3 → ∃ m : Int, 0 < m ∧ (m : ℚ) = ((3 : Int) : ℚ) * (2 : ℚ) ^ k :=
    fun k _ => ⟨3 * 2 ^ k, by positivity, by push_cast; ring⟩
  ⟨⟨by decide, by norm_num, by decide, hper⟩,
    py_noise1_tile PERM (1 / 2) (1 / 2) 2 3 0 3 (by decide) (by norm_num) (by decide) hper⟩

/-! ## C5: the octave count check -/

theorem ofOption_ne_valueError {α : Type} (o : Option α) (msg : String) :
    PyResult.ofOption o ≠ PyResult.valueError msg := by
  cases o <;> simp [PyResult.ofOption]

/-- C5: for `octaves ≤ 0` each of the six entry points yields the `ValueError`
"Expected octaves value > 0" (no value and no array, hence no store to a buffer), whatever the
other arguments; for `octaves ≥ 1` none of them yields that error. -/
theorem octaves_checked (PERM : Int → Int) (GRAD3 : Int → Int → ℚ) (octaves : Int) :
    (octaves ≤ 0 →
      (∀ (x p l : ℚ) (R base : Int),
        py_noise1 PERM x octaves p l R base
          = PyResult.valueError "Expected octaves value > 0") ∧
      (∀ (x y p l rx ry : ℚ) (base : Int),
        py_noise2 PERM GRAD3 x y octaves p l rx ry base
          = PyResult.valueError "Expected octaves value > 0") ∧
      (∀ (x y z p l : ℚ) (rx ry rz base : Int),
        py_noise3 PERM GRAD3 x y z octaves p l rx ry rz base
          = PyResult.valueError "Expected octaves value > 0") ∧
      (∀ (x : ℚ) (x_size : Int) (x_res p l : ℚ) (R base : Int),
        py_arr_noise1 PERM x x_size x_res octaves p l R base
          = PyResult.valueError "Expected octaves value > 0") ∧
      (∀ (x y : ℚ) (width height : Int) (x_res y_res p l rx ry : ℚ) (base : Int),
        py_arr_noise2 PERM GRAD3 x y width height x_res y_res octaves p l rx ry base
          = PyResult.valueError "Expected octaves value > 0") ∧
      (∀ (x y z : ℚ) (x_size y_size z_size : Int) (x_res y_res z_res p l rx ry rz : ℚ)
          (base : Int),
        py_arr_noise3 PERM GRAD3 x y z x_size y_size z_size x_res y_res z_res octaves p l
          rx ry rz base = PyResult.valueError "Expected octaves value > 0")) ∧
    (1 ≤ octaves →
      (∀ (x p l : ℚ) (R base : Int),
        py_noise1 PERM x octaves p l R base
          ≠ PyResult.valueError "Expected octaves value > 0") ∧
      (∀ (x y p l rx ry : ℚ) (base : Int),
        py_noise2 PERM GRAD3 x y octaves p l rx ry base
          ≠ PyResult.valueError "Expected octaves value > 0") ∧
      (∀ (x y z p l : ℚ) (rx ry rz base : Int),
        py_noise3 PERM GRAD3 x y z octaves p l rx ry rz base
          ≠ PyResult.valueError "Expected octaves value > 0") ∧
      (∀ (x : ℚ) (x_size : Int) (x_res p l : ℚ) (R base : Int),
        py_arr_noise1 PERM x x_size x_res octaves p l R base
          ≠ PyResult.valueError "Expected octaves value > 0") ∧
      (∀ (x y : ℚ) (width height : Int) (x_res y_res p l rx ry : ℚ) (base : Int),
        py_arr_noise2 PERM GRAD3 x y width height x_res y_res octaves p l rx ry base
          ≠ PyResult.valueError "Expected octaves value > 0") ∧
      (∀ (x y z : ℚ) (x_size y_size z_size : Int) (x_res y_res z_res p l rx ry rz : ℚ)
          (base : Int),
        py_arr_noise3 PERM GRAD3 x y z x_size y_size z_size x_res y_res z_res octaves p l
          rx ry rz base ≠ PyResult.valueError "Expected octaves value > 0")) := by
  constructor
  · intro h
    have h1 : ¬ octaves = 1 := by omega
    have h2 : ¬ octaves > 1 := by omega
    refine ⟨?_, ?_, ?_, ?_, ?_, ?_⟩ <;> intros
    · simp only [py_noise1, if_neg h1, if_neg h2]
    · simp only [py_noise2, if_neg h1, if_neg h2]
    · simp only [py_noise3, if_neg h1, if_neg h2]
    · simp only [py_arr_noise1, if_pos h]
    · simp only [py_arr_noise2, if_pos h]
    · simp only [py_arr_noise3, if_pos h]
  · intro h
    have h0 : ¬ octaves ≤ 0 := by omega
    refine ⟨?_, ?_, ?_, ?_, ?_, ?_⟩ <;> intros
    · unfold py_noise1
      split_ifs with a b
      · exact ofOption_ne_valueError _ _
      · exact ofOption_ne_valueError _ _
      · omega
    · unfold py_noise2
      split_ifs with a b
      · simp
      · simp
      · omega
    · unfold py_noise3
      split_ifs with a b
      · simp
      · simp
      · omega
    · unfold py_arr_noise1
      rw [if_neg h0]
      split_ifs
      · exact ofOption_ne_valueError _ _
      · exact ofOption_ne_valueError _ _
    · unfold py_arr_noise2
      rw [if_neg h0]
      split_ifs <;> simp
    · unfold py_arr_noise3
      rw [if_neg h0]
      split_ifs <;> simp

/-- C5 witness: `octaves = 0` is rejected and `octaves = 2` is not, for the table `PERM`. -/
theorem octaves_checked_witness :
    ((0 : Int) ≤ 0 ∧
      py_noise1 PERM (1 / 2) 0 (1 / 2) 2 1024 0
        = PyResult.valueError "Expected octaves value > 0" ∧
      py_arr_noise3 PERM GRAD3 0 0 0 1 1 1 1 1 1 0 (1 / 2) 2 1024 1024 1024 0
        = PyResult.valueError "Expected octaves value > 0") ∧
    ((1 : Int) ≤ 2 ∧
      py_noise1 PERM (1 / 2) 2 (1 / 2) 2 1024 0
        ≠ PyResult.valueError "Expected octaves value > 0" ∧
      py_arr_noise3 PERM GRAD3 0 0 0 1 1 1 1 1 1 2 (1 / 2) 2 1024 1024 1024 0
        ≠ PyResult.valueError "Expected octaves value > 0") :=
  ⟨⟨le_refl _, ((octaves_checked PERM GRAD3 0).1 (le_refl _)).1 _ _ _ _ _,
      ((octaves_checked PERM GRAD3 0).1 (le_refl _)).2.2.2.2.2 _ _ _ _ _ _ _ _ _ _ _ _ _ _
        _⟩,
    ⟨by decide, ((octaves_checked PERM GRAD3 2).2 (by decide)).1 _ _ _ _ _,
      ((octaves_checked PERM GRAD3 2).2 (by decide)).2.2.2.2.2 _ _ _ _ _ _ _ _ _ _ _ _ _ _
        _⟩⟩

/-! ## C6, C7, C9: the loops of `py_arr_noise1` and `py_arr_noise3` -/

/-- The loop `for (int i = 0; i < bound; i++)` runs its body exactly for the `i` below the
`float` bound. -/
theorem lt_c_count_below (bound : ℚ) (i : Nat) : i < c_count_below bound ↔ (i : ℚ) < bound := by
  unfold c_count_below
  rw [Int.lt_toNat, Int.lt_ceil]
  simp

theorem c_count_below_one : c_count_below 1 = 1 := by
  simp [c_count_below]

theorem c_count_below_two : c_count_below 2 = 2 := by
  simp [c_count_below]

/-- At an integer coordinate `noise1` is 0, for a non-zero period. -/
theorem noise1_intCast (PERM : Int → Int) (n : Int) {R : Int} (base : Int) (hR : R ≠ 0) :
    noise1 PERM (n : ℚ) R base = some 0 := by
  rw [noise1_of_ne PERM _ base hR, Int.floor_intCast]
  simp [lerp, grad1]

theorem noise1_half_1024 : noise1 PERM (1 / 2) 1024 0 = some (7 / 10) := by
  rw [noise1_eval PERM _ 1024 0 0 0 1 (by decide) (by norm_num) (by decide) (by decide),
    PERM_0, PERM_1, grad1_pos 151 _ (by decide), grad1_pos 160 _ (by decide)]
  norm_num [lerp]

theorem noise1_three_half_1024 : noise1 PERM (3 / 2) 1024 0 = some (1 / 5) := by
  rw [noise1_eval PERM _ 1024 0 1 1 2 (by decide) (by norm_num) (by decide) (by decide),
    PERM_1, PERM_2, grad1_pos 160 _ (by decide), grad1_neg 137 _ (by decide)]
  norm_num [lerp]

/-- The stores of `py_arr_noise1` for `x = 1/2`, `x_size = 2`, `x_res = 1`, one octave. -/
theorem py_arr_noise1_short :
    py_arr_noise1 PERM (1 / 2) 2 1 1 (1 / 2) 2 1024 0 =
      PyResult.ok { dims := [2], writes := [(0, 7 / 10)] } := by
  have e : (1 / 2 + ((0 : Nat) : ℚ) / 1 : ℚ) = 1 / 2 := by norm_num
  simp only [py_arr_noise1, c_count_below_one, c_for_cells, e, noise1_half_1024]
  rfl

/-- C6: `noisearr1` from x = 1/2 with `x_size = 2`, `x_res = 1` and one octave stores only
`data[0]` (the loop runs while `i < x_res`), so cell 1 of the two-cell output is never
written, while the scalar `noise1` at 1/2 + 1/1 returns 1/5. -/
theorem py_arr_noise1_leaves_cell_unwritten :
    py_arr_noise1 PERM (1 / 2) 2 1 1 (1 / 2) 2 1024 0 =
        PyResult.ok { dims := [2], writes := [(0, 7 / 10)] } ∧
      NpArray.cell { dims := [2], writes := [(0, 7 / 10)] } 1 = none ∧
      py_noise1 PERM (1 / 2 + 1 / 1) 1 (1 / 2) 2 1024 0 = PyResult.ok (1 / 5) := by
  refine ⟨py_arr_noise1_short, ?_, ?_⟩
  · simp [NpArray.cell]
  · rw [py_noise1_one, show (1 / 2 + 1 / 1 : ℚ) = 3 / 2 by norm_num, noise1_three_half_1024]
    rfl

/-- At integer coordinates `noise3` is 0: every offset from the cell corner is zero. -/
theorem noise3_intCast (PERM : Int → Int) (GRAD3 : Int → Int → ℚ) (a b c : Int)
    (Rx Ry Rz base : Int) :
    noise3 PERM GRAD3 (a : ℚ) (b : ℚ) (c : ℚ) Rx Ry Rz base = 0 := by
  simp [noise3, floorf, lerp, grad3]

theorem c_int_1024 : c_int (1024 : ℚ) = 1024 :=
  c_int_eq_of_nonneg (by norm_num) (by norm_num) (by norm_num)

theorem cell_half_1024 : c_int (floorf (fmodf (1 / 2) ((1024 : Int) : ℚ))) = 0 := by
  rw [fmodf_eq 0 (c_int_eq_of_nonneg (by norm_num) (by norm_num) (by norm_num)), c_int_floorf]
  norm_num

theorem cell_three_half_1024 : c_int (floorf (fmodf (3 / 2) ((1024 : Int) : ℚ))) = 1 := by
  rw [fmodf_eq 0 (c_int_eq_of_nonneg (by norm_num) (by norm_num) (by norm_num)), c_int_floorf]
  norm_num

theorem next_one_1024 : c_int (fmodf (((0 : Int) + 1 : Int) : ℚ) ((1024 : Int) : ℚ)) = 1 := by
  rw [fmodf_eq 0 (c_int_eq_of_nonneg (by norm_num) (by norm_num) (by norm_num))]
  exact c_int_eq_of_nonneg (by norm_num) (by norm_num) (by norm_num)

theorem next_two_1024 : c_int (fmodf (((1 : Int) + 1 : Int) : ℚ) ((1024 : Int) : ℚ)) = 2 := by
  rw [fmodf_eq 0 (c_int_eq_of_nonneg (by norm_num) (by norm_num) (by norm_num))]
  exact c_int_eq_of_nonneg (by norm_num) (by norm_num) (by norm_num)

theorem floorf_half : floorf (1 / 2) = 0 := by norm_num [floorf]

theorem floorf_three_half : floorf (3 / 2) = 1 := by norm_num [floorf]

theorem noise3_half_1024 : noise3 PERM GRAD3 (1 / 2) 0 0 1024 1024 1024 0 = 0 := by
  have h0 : PERM (PERM (PERM (0 % 256 + 0) + (0 % 256 + 0)) + (0 % 256 + 0)) % 16 = 4 := by
    decide
  have h1 : PERM (PERM (PERM (1 % 256 + 0) + (0 % 256 + 0)) + (0 % 256 + 0)) % 16 = 6 := by
    decide
  rw [noise3_cells PERM GRAD3 _ _ _ _ _ _ _ 0 0 0 1 1 1 cell_half_1024 (cell_zero 1024)
    (cell_zero 1024) next_one_1024 next_one_1024 next_one_1024, floorf_zero, floorf_half,
    grad3_eval _ 4 _ _ _ h0, grad3_eval _ 6 _ _ _ h1,
    show GRAD3 4 0 = 1 from rfl, show GRAD3 6 0 = 1 from rfl]
  norm_num [lerp]

theorem noise3_three_half_1024 : noise3 PERM GRAD3 (3 / 2) 0 0 1024 1024 1024 0 = 1 / 2 := by
  have h0 : PERM (PERM (PERM (1 % 256 + 0) + (0 % 256 + 0)) + (0 % 256 + 0)) % 16 = 6 := by
    decide
  have h1 : PERM (PERM (PERM (2 % 256 + 0) + (0 % 256 + 0)) + (0 % 256 + 0)) % 16 = 3 := by
    decide
  rw [noise3_cells PERM GRAD3 _ _ _ _ _ _ _ 1 0 0 2 1 1 cell_three_half_1024 (cell_zero 1024)
    (cell_zero 1024) next_two_1024 next_one_1024 next_one_1024, floorf_zero,
    floorf_three_half, grad3_eval _ 6 _ _ _ h0, grad3_eval _ 3 _ _ _ h1,
    show GRAD3 6 0 = 1 from rfl, show GRAD3 3 0 = -1 from rfl]
  norm_num [lerp]

/-- C7: `noisearr3` from (1/2, 0, 0) with sizes 2, 1, 1, resolutions 1 and one octave stores
only `data[0]` (the innermost loop runs while `k < z_size`), so the flat cell
`(0 * 1 + 0) * 2 + 1 = 1` is never written, while the scalar `noise3` at
(1/2 + 1/1, 0, 0) returns 1/2. -/
theorem py_arr_noise3_leaves_cell_unwritten :
    py_arr_noise3 PERM GRAD3 (1 / 2) 0 0 2 1 1 1 1 1 1 (1 / 2) 2 1024 1024 1024 0 =
        PyResult.ok { dims := [2, 1, 1], writes := [(0, 0)] } ∧
      NpArray.cell { dims := [2, 1, 1], writes := [(0, 0)] } ((0 * 1 + 0) * 2 + 1) = none ∧
      py_noise3 PERM GRAD3 (1 / 2 + 1 / 1) (0 + 0 / 1) (0 + 0 / 1) 1 (1 / 2) 2 1024 1024 1024 0
        = PyResult.ok (1 / 2) := by
  refine ⟨?_, ?_, ?_⟩
  · have e : (1 / 2 + ((0 : Nat) : ℚ) / 1 : ℚ) = 1 / 2 := by norm_num
    have z : (0 + ((0 : Nat) : ℚ) / 1 : ℚ) = 0 := by norm_num
    have r : List.range (c_count 1) = [0] := rfl
    simp only [py_arr_noise3, r, List.flatMap_cons, List.flatMap_nil, List.map_cons,
      List.map_nil, List.append_nil, e, z, c_int_1024, noise3_half_1024]
    rfl
  · simp [NpArray.cell]
  · rw [show (1 / 2 + 1 / 1 : ℚ) = 3 / 2 by norm_num, show (0 + 0 / 1 : ℚ) = 0 by norm_num]
    simp only [py_noise3, if_true, noise3_three_half_1024]

theorem py_arr_noise1_long :
    py_arr_noise1 PERM (1 / 2) 1 2 1 (1 / 2) 2 1024 0 =
      PyResult.ok { dims := [1], writes := [(0, 7 / 10), (1, 0)] } := by
  have e0 : (1 / 2 + ((0 : Nat) : ℚ) / 2 : ℚ) = 1 / 2 := by norm_num
  have e1 : (1 / 2 + ((1 : Nat) : ℚ) / 2 : ℚ) = ((1 : Int) : ℚ) := by norm_num
  simp only [py_arr_noise1, c_count_below_two, c_for_cells, e0, e1, noise1_half_1024,
    noise1_intCast PERM 1 0 (by decide : (1024 : Int) ≠ 0)]
  rfl

theorem py_arr_noise3_long :
    py_arr_noise3 PERM GRAD3 0 0 0 1 1 2 1 1 1 1 (1 / 2) 2 1024 1024 1024 0 =
      PyResult.ok { dims := [1, 1, 2], writes := [(0, 0), (1, 0), (1, 0), (2, 0)] } := by
  have z0 : (0 + ((0 : Nat) : ℚ) / 1 : ℚ) = ((0 : Int) : ℚ) := by norm_num
  have z1 : (0 + ((1 : Nat) : ℚ) / 1 : ℚ) = ((1 : Int) : ℚ) := by norm_num
  have r1 : List.range (c_count 1) = [0] := rfl
  have r2 : List.range (c_count 2) = [0, 1] := rfl
  simp only [py_arr_noise3, r1, r2, List.flatMap_cons, List.flatMap_nil, List.map_cons,
    List.map_nil, List.append_nil, z0, z1, noise3_intCast]
  rfl

/-- C9: `noisearr1` with `x_size = 1` and `x_res = 2` stores to `data[1]`, outside its
one-cell buffer, and `noisearr3` with sizes 1, 1, 2 stores to `data[2]`, outside its two-cell
buffer. -/
theorem grid_stores_out_of_bounds :
    (py_arr_noise1 PERM (1 / 2) 1 2 1 (1 / 2) 2 1024 0 =
        PyResult.ok { dims := [1], writes := [(0, 7 / 10), (1, 0)] } ∧
      ¬ NpArray.inBounds { dims := [1], writes := [(0, 7 / 10), (1, 0)] }) ∧
    (py_arr_noise3 PERM GRAD3 0 0 0 1 1 2 1 1 1 1 (1 / 2) 2 1024 1024 1024 0 =
        PyResult.ok { dims := [1, 1, 2], writes := [(0, 0), (1, 0), (1, 0), (2, 0)] } ∧
      ¬ NpArray.inBounds { dims := [1, 1, 2], writes := [(0, 0), (1, 0), (1, 0), (2, 0)] }) := by
  refine ⟨⟨py_arr_noise1_long, ?_⟩, ⟨py_arr_noise3_long, ?_⟩⟩
  · intro h
    have := (h (1, 0) (by simp)).2
    simp [NpArray.size] at this
  · intro h
    have := (h (2, 0) (by simp)).2
    simp [NpArray.size] at this

/-! ## C8: the loops of `py_arr_noise2` -/

/-- Flat indices stored by a row-by-row double loop over `H` rows of `W` cells: each index
below `W * H` once, in increasing order. -/
theorem grid2_indices (W H : Nat) (val : Nat → Nat → ℚ) :
    ((List.range H).flatMap fun (i : Nat) =>
        (List.range W).map fun (j : Nat) => ((W : Int) * (i : Int) + (j : Int), val i j)).map
      Prod.fst = (List.range (W * H)).map fun (n : Nat) => (n : Int) := by
  induction H with
  | zero => simp
  | succ H ih =>
    rw [List.range_succ, List.flatMap_append, List.map_append, ih, Nat.mul_succ,
      List.range_add, List.map_append]
    congr 1
    simp only [List.flatMap_cons, List.flatMap_nil, List.append_nil, List.map_map]
    apply List.map_congr_left
    intro j _
    simp

theorem foldl_store_of_not_mem (idx : Int) (ws : List (Int × ℚ)) (cur : Option ℚ)
    (h : idx ∉ ws.map Prod.fst) :
    ws.foldl (fun cur w => if w.1 = idx then some w.2 else cur) cur = cur := by
  induction ws generalizing cur with
  | nil => rfl
  | cons w ws ih =>
    rw [List.map_cons, List.mem_cons, not_or] at h
    rw [List.foldl_cons, if_neg (fun e => h.1 e.symm), ih cur h.2]

theorem foldl_store_of_mem (idx : Int) (v : ℚ) (ws : List (Int × ℚ)) (cur : Option ℚ)
    (hn : (ws.map Prod.fst).Nodup) (hm : (idx, v) ∈ ws) :
    ws.foldl (fun cur w => if w.1 = idx then some w.2 else cur) cur = some v := by
  induction ws generalizing cur with
  | nil => simp at hm
  | cons w ws ih =>
    rw [List.map_cons, List.nodup_cons] at hn
    rw [List.foldl_cons]
    rcases List.mem_cons.mp hm with e | hm'
    · subst e
      rw [if_pos rfl]
      exact foldl_store_of_not_mem _ ws _ hn.1
    · exact ih _ hn.2 hm'

/-- A cell stored exactly once holds the stored value. -/
theorem cell_of_mem (d : List Int) (ws : List (Int × ℚ)) (idx : Int) (v : ℚ)
    (hn : (ws.map Prod.fst).Nodup) (hm : (idx, v) ∈ ws) :
    NpArray.cell { dims := d, writes := ws } idx = some v :=
  foldl_store_of_mem idx v ws none hn hm

theorem nodup_cast_range (n : Nat) : ((List.range n).map fun (k : Nat) => (k : Int)).Nodup :=
  List.Nodup.map (fun _ _ h => Int.ofNat.inj h) (List.nodup_range n)

/-- A row-by-row double loop leaves `val i j` in flat cell `W * i + j`. -/
theorem grid2_cell (d : List Int) (W H : Nat) (val : Nat → Nat → ℚ) (i j : Nat) (hi : i < H)
    (hj : j < W) :
    NpArray.cell { dims := d, writes := (List.range H).flatMap fun (i : Nat) =>
        (List.range W).map fun (j : Nat) => ((W : Int) * (i : Int) + (j : Int), val i j) }
      ((W : Int) * (i : Int) + (j : Int)) = some (val i j) := by
  apply cell_of_mem
  · rw [grid2_indices]
    exact nodup_cast_range _
  · rw [List.mem_flatMap]
    exact ⟨i, List.mem_range.mpr hi, List.mem_map.mpr ⟨j, List.mem_range.mpr hj, rfl⟩⟩

/-- C8: for `width, height ≥ 0`, non-zero resolutions and `octaves ≥ 1`, `noisearr2` returns
an array of `width * height` cells, stores to the flat indices 0, 1, ..., `width * height - 1`
once each, and leaves in flat cell `width * i + j` (`j < width`, `i < height`) the value the
scalar `noise2` returns at `(x + j / x_res, y + i / y_res)` for the same parameters. -/
theorem py_arr_noise2_consistent (PERM : Int → Int) (GRAD3 : Int → Int → ℚ) (x y : ℚ)
    (width height : Int) (x_res y_res : ℚ) (octaves : Int) (p l rx ry : ℚ) (base : Int)
    (hw : 0 ≤ width) (hh : 0 ≤ height) (_hx : x_res ≠ 0) (_hy : y_res ≠ 0) (ho : 1 ≤ octaves) :
    ∃ a : NpArray,
      py_arr_noise2 PERM GRAD3 x y width height x_res y_res octaves p l rx ry base
        = PyResult.ok a ∧
      a.size = width * height ∧
      a.writes.map Prod.fst
        = (List.range (width * height).toNat).map (fun (n : Nat) => (n : Int)) ∧
      ∀ i j : Nat, (i : Int) < height → (j : Int) < width →
        ∃ v : ℚ,
          py_noise2 PERM GRAD3 (x + (j : ℚ) / x_res) (y + (i : ℚ) / y_res) octaves p l rx ry
            base = PyResult.ok v ∧
          a.cell (width * (i : Int) + (j : Int)) = some v := by
  obtain ⟨W, rfl⟩ := Int.eq_ofNat_of_zero_le hw
  obtain ⟨H, rfl⟩ := Int.eq_ofNat_of_zero_le hh
  have h0 : ¬ octaves ≤ 0 := by omega
  have hWH : ((W : Int) * (H : Int)).toNat = W * H := by
    rw [← Nat.cast_mul, Int.toNat_natCast]
  rw [hWH]
  by_cases h1 : octaves = 1
  · simp only [py_arr_noise2, py_noise2, if_neg h0, if_pos h1, c_count, Int.toNat_natCast]
    refine ⟨_, rfl, ?_, grid2_indices W H _, ?_⟩
    · simp [NpArray.size]
    · intro i j hi hj
      exact ⟨_, rfl, grid2_cell _ W H
        (fun i j => noise2 PERM GRAD3 (x + (j : ℚ) / x_res) (y + (i : ℚ) / y_res) rx ry base)
        i j (by exact_mod_cast hi) (by exact_mod_cast hj)⟩
  · have h2 : octaves > 1 := by omega
    simp only [py_arr_noise2, py_noise2, if_neg h0, if_neg h1, if_pos h2, c_count,
      Int.toNat_natCast]
    refine ⟨_, rfl, ?_, grid2_indices W H _, ?_⟩
    · simp [NpArray.size]
    · intro i j hi hj
      exact ⟨_, rfl, grid2_cell _ W H
        (fun i j =>
          ((arr_octave2 PERM GRAD3 (x + (j : ℚ) / x_res) (y + (i : ℚ) / y_res) p l rx ry
            base)^[octaves.toNat] {}).total /
          ((arr_octave2 PERM GRAD3 (x + (j : ℚ) / x_res) (y + (i : ℚ) / y_res) p l rx ry
            base)^[octaves.toNat] {}).max)
        i j (by exact_mod_cast hi) (by exact_mod_cast hj)⟩

/-- C8 witness: a 3 by 2 grid from (1/2, 0) with resolutions 1 and 2 and two octaves. -/
theorem py_arr_noise2_consistent_witness :
    ((0 : Int) ≤ 3 ∧ (0 : Int) ≤ 2 ∧ (1 : ℚ) ≠ 0 ∧ (2 : ℚ) ≠ 0 ∧ (1 : Int) ≤ 2) ∧
    ∃ a : NpArray,
      py_arr_noise2 PERM GRAD3 (1 / 2) 0 3 2 1 2 2 (1 / 2) 2 1024 1024 0 = PyResult.ok a ∧
      a.size = 3 * 2 ∧
      a.writes.map Prod.fst
        = (List.range ((3 : Int) * 2).toNat).map (fun (n : Nat) => (n : Int)) ∧
      ∀ i j : Nat, (i : Int) < 2 → (j : Int) < 3 →
        ∃ v : ℚ,
          py_noise2 PERM GRAD3 (1 / 2 + (j : ℚ) / 1) (0 + (i : ℚ) / 2) 2 (1 / 2) 2 1024 1024 0
            = PyResult.ok v ∧
          a.cell (3 * (i : Int) + (j : Int)) = some v :=
  ⟨⟨by decide, by decide, by norm_num, by norm_num, by decide⟩,
    py_arr_noise2_consistent PERM GRAD3 (1 / 2) 0 3 2 1 2 2 (1 / 2) 2 1024 1024 0 (by decide)
      (by decide) (by norm_num) (by norm_num) (by decide)⟩

/-! ## C10: bound of the kernel `noise1` -/

/-- The gradient factor of `grad1` lies between -1 and 8. -/
theorem grad1_factor (hash : Int) :
    ∃ g : ℚ, -1 ≤ g ∧ g ≤ 8 ∧ ∀ x : ℚ, grad1 hash x = g * x := by
  by_cases h : c_and hash 8 = 0
  · have h0 : 0 ≤ hash % 8 := Int.emod_nonneg _ (by decide)
    have h1 : hash % 8 < 8 := Int.emod_lt_of_pos _ (by decide)
    have q0 : (0 : ℚ) ≤ ((hash % 8 : Int) : ℚ) := by exact_mod_cast h0
    have q1 : ((hash % 8 : Int) : ℚ) ≤ 7 := by
      have : hash % 8 ≤ 7 := by omega
      exact_mod_cast this
    exact ⟨((hash % 8 : Int) : ℚ) + 1, by linarith, by linarith, fun x => grad1_pos hash x h⟩
  · exact ⟨-1, le_refl _, by norm_num, fun x => by rw [grad1_neg hash x h]; ring⟩

theorem fade_nonneg {t : ℚ} (h0 : 0 ≤ t) : 0 ≤ t * t * t * (t * (t * 6 - 15) + 10) := by
  have h : 0 ≤ t * (t * 6 - 15) + 10 := by nlinarith [sq_nonneg (t - 5 / 4)]
  exact mul_nonneg (mul_nonneg (mul_nonneg h0 h0) h0) h

theorem fade_le_one {t : ℚ} (h0 : 0 ≤ t) (h1 : t ≤ 1) :
    t * t * t * (t * (t * 6 - 15) + 10) ≤ 1 := by
  have e : 1 - t * t * t * (t * (t * 6 - 15) + 10) =
      (1 - t) * (1 - t) * (1 - t) * (6 * t * t + 3 * t + 1) := by ring
  have s : 0 ≤ 1 - t := sub_nonneg.mpr h1
  have p : 0 ≤ 6 * t * t + 3 * t + 1 := by positivity
  have := mul_nonneg (mul_nonneg (mul_nonneg s s) s) p
  linarith

/-- The weight `t * (1 - fade t)` of the left corner is at most 9/28 on the unit interval. -/
theorem left_weight_le {t : ℚ} (h0 : 0 ≤ t) (h1 : t ≤ 1) :
    t * (1 - t * t * t * (t * (t * 6 - 15) + 10)) ≤ 9 / 28 := by
  nlinarith [sq_nonneg (t - 1 / 4), sq_nonneg (t ^ 2 - t), sq_nonneg (t ^ 2 - 1 / 4),
    mul_nonneg h0 (sub_nonneg.mpr h1), mul_nonneg (mul_nonneg h0 (sub_nonneg.mpr h1)) h0,
    sq_nonneg (t - 1 / 2), sq_nonneg (t * (t - 3 / 4))]

/-- The weight `(1 - t) * fade t` of the right corner is at most 9/28 on the unit interval. -/
theorem right_weight_le {t : ℚ} (h0 : 0 ≤ t) (h1 : t ≤ 1) :
    (1 - t) * (t * t * t * (t * (t * 6 - 15) + 10)) ≤ 9 / 28 := by
  have h := left_weight_le (sub_nonneg.mpr h1) (sub_le_self 1 h0)
  have e : (1 - t) * (t * t * t * (t * (t * 6 - 15) + 10)) =
      (1 - t) * (1 - (1 - t) * (1 - t) * (1 - t) * ((1 - t) * ((1 - t) * 6 - 15) + 10)) := by
    ring
  rw [e]
  exact h

/-- The two corner weights sum to at most 1/2. -/
theorem weights_sum_le {t : ℚ} (h0 : 0 ≤ t) (h1 : t ≤ 1) :
    t * (1 - t * t * t * (t * (t * 6 - 15) + 10)) +
      (1 - t) * (t * t * t * (t * (t * 6 - 15) + 10)) ≤ 1 / 2 := by
  have e : t * (1 - t * t * t * (t * (t * 6 - 15) + 10)) +
      (1 - t) * (t * t * t * (t * (t * 6 - 15) + 10)) =
      1 / 2 - 2 * ((t - 1 / 2) * (t - 1 / 2)) *
        (6 * ((t - 1 / 2) * (t - 1 / 2)) * ((t - 1 / 2) * (t - 1 / 2))
          - 5 * ((t - 1 / 2) * (t - 1 / 2)) + 15 / 8) := by ring
  have s0 : 0 ≤ (t - 1 / 2) * (t - 1 / 2) := mul_self_nonneg _
  have s1 : (t - 1 / 2) * (t - 1 / 2) ≤ 1 / 4 := by nlinarith
  have p : 0 ≤ 6 * ((t - 1 / 2) * (t - 1 / 2)) * ((t - 1 / 2) * (t - 1 / 2))
      - 5 * ((t - 1 / 2) * (t - 1 / 2)) + 15 / 8 := by nlinarith [mul_nonneg s0 s0]
  have := mul_nonneg s0 p
  rw [e]
  linarith

/-- The interpolated corner values of `noise1`, scaled by 0.4, stay within 11/10. -/
theorem lerp_grad1_bound (h0 h1 : Int) {t : ℚ} (t0 : 0 ≤ t) (t1 : t ≤ 1) :
    |lerp (t * t * t * (t * (t * 6 - 15) + 10)) (grad1 h0 t) (grad1 h1 (t - 1)) * (2 / 5)|
      ≤ 11 / 10 := by
  obtain ⟨g0, a0, b0, e0⟩ := grad1_factor h0
  obtain ⟨g1, a1, b1, e1⟩ := grad1_factor h1
  have f0 := fade_nonneg t0
  have f1 := fade_le_one t0 t1
  have hu := left_weight_le t0 t1
  have hv := right_weight_le t0 t1
  have hs := weights_sum_le t0 t1
  rw [e0, e1]
  unfold lerp
  generalize t * t * t * (t * (t * 6 - 15) + 10) = f at *
  have u0 : 0 ≤ t * (1 - f) := mul_nonneg t0 (sub_nonneg.mpr f1)
  have v0 : 0 ≤ (1 - t) * f := mul_nonneg (sub_nonneg.mpr t1) f0
  have e : (g0 * t + f * (g1 * (t - 1) - g0 * t)) * (2 / 5) =
      (g0 * (t * (1 - f)) - g1 * ((1 - t) * f)) * (2 / 5) := by ring
  have m1 : g0 * (t * (1 - f)) ≤ 8 * (t * (1 - f)) := mul_le_mul_of_nonneg_right b0 u0
  have m2 : -1 * (t * (1 - f)) ≤ g0 * (t * (1 - f)) := mul_le_mul_of_nonneg_right a0 u0
  have m3 : g1 * ((1 - t) * f) ≤ 8 * ((1 - t) * f) := mul_le_mul_of_nonneg_right b1 v0
  have m4 : -1 * ((1 - t) * f) ≤ g1 * ((1 - t) * f) := mul_le_mul_of_nonneg_right a1 v0
  rw [e, abs_le]
  constructor <;> linarith

/-- C10: for every coordinate, period `R > 0`, base and table contents the kernel `noise1`
returns a value, and that value lies within `[-1.1, 1.1]`. -/
theorem noise1_bounded (PERM : Int → Int) (x : ℚ) (R base : Int) (hR : 0 < R) :
    ∃ v : ℚ, noise1 PERM x R base = some v ∧ |v| ≤ 11 / 10 := by
  refine ⟨_, noise1_of_ne PERM x base hR.ne', ?_⟩
  have t0 : 0 ≤ x - (⌊x⌋ : ℚ) := sub_nonneg.mpr (Int.floor_le x)
  have t1 : x - (⌊x⌋ : ℚ) ≤ 1 := by
    have := Int.lt_floor_add_one x
    linarith
  exact lerp_grad1_bound _ _ t0 t1

/-- C10 witness: the table `PERM`, x = -1/2, period 3 and base 0. -/
theorem noise1_bounded_witness :
    (0 : Int) < 3 ∧ ∃ v : ℚ, noise1 PERM (-1 / 2) 3 0 = some v ∧ |v| ≤ 11 / 10 :=
  ⟨by decide, noise1_bounded PERM (-1 / 2) 3 0 (by decide)⟩

/-! ## C11: bound of the normalised octave sum of `py_noise1` -/

theorem noise1_getD_abs_le (PERM : Int → Int) (x : ℚ) {R : Int} (base : Int) (hR : R ≠ 0) :
    |(noise1 PERM x R base).getD 0| ≤ 11 / 10 := by
  rw [noise1_of_ne PERM x base hR, Option.getD_some]
  have t0 : 0 ≤ x - (⌊x⌋ : ℚ) := sub_nonneg.mpr (Int.floor_le x)
  have t1 : x - (⌊x⌋ : ℚ) ≤ 1 := by
    have := Int.lt_floor_add_one x
    linarith
  exact lerp_grad1_bound _ _ t0 t1

/-- A sum of terms `a k * p ^ k` with `|a k| ≤ c` and `p ≥ 0`, divided by the sum of the
`p ^ k`, stays within `c`. -/
theorem abs_weighted_mean_le (a : Nat → ℚ) (p c : ℚ) (n : Nat) (hn : 1 ≤ n) (hp : 0 ≤ p)
    (ha : ∀ k : Nat, k < n → |a k| ≤ c) :
    |(∑ k ∈ Finset.range n, a k * p ^ k) / ∑ k ∈ Finset.range n, p ^ k| ≤ c := by
  have hpos : 0 < ∑ k ∈ Finset.range n, p ^ k := by
    have h0 : p ^ 0 ≤ ∑ k ∈ Finset.range n, p ^ k :=
      Finset.single_le_sum (f := fun k => p ^ k) (fun k _ => pow_nonneg hp k)
        (Finset.mem_range.mpr hn)
    simp only [pow_zero] at h0
    linarith
  rw [abs_div, abs_of_pos hpos, div_le_iff₀ hpos]
  calc |∑ k ∈ Finset.range n, a k * p ^ k|
      ≤ ∑ k ∈ Finset.range n, |a k * p ^ k| := Finset.abs_sum_le_sum_abs _ _
    _ ≤ ∑ k ∈ Finset.range n, c * p ^ k := by
        apply Finset.sum_le_sum
        intro k hk
        rw [abs_mul, abs_of_nonneg (pow_nonneg hp k)]
        exact mul_le_mul_of_nonneg_right (ha k (Finset.mem_range.mp hk)) (pow_nonneg hp k)
    _ = c * ∑ k ∈ Finset.range n, p ^ k := by rw [Finset.mul_sum]

theorem periods_3_two (k : Nat) : c_int (((3 : Int) : ℚ) * (2 : ℚ) ^ k) ≠ 0 := by
  have e : ((3 : Int) : ℚ) * (2 : ℚ) ^ k = (((3 * 2 ^ k : Int)) : ℚ) := by push_cast; ring
  rw [e, c_int_intCast]
  positivity

/-- C11 counterexample: two octaves at x = 1/2 with persistence -1/2, lacunarity 2 and
period 3 return 7/5: the octave values 7/10 and 0 are divided by the norm 1 - 1/2. -/
theorem py_noise1_unbounded :
    py_noise1 PERM (1 / 2) 2 (-1 / 2) 2 3 0 = PyResult.ok (7 / 5) ∧
      ¬ |(7 / 5 : ℚ)| ≤ 11 / 10 := by
  constructor
  · have e := py_noise1_closed PERM (1 / 2) (-1 / 2) 2 3 0 2 (by decide)
      (fun k _ => periods_3_two k)
    have e0 : c_int (((3 : Int) : ℚ) * (2 : ℚ) ^ 0) = 3 :=
      c_int_eq_of_nonneg (by norm_num) (by norm_num) (by norm_num)
    have e1 : c_int (((3 : Int) : ℚ) * (2 : ℚ) ^ 1) = 6 :=
      c_int_eq_of_nonneg (by norm_num) (by norm_num) (by norm_num)
    have x1 : (1 / 2 * (2 : ℚ) ^ 1 : ℚ) = ((1 : Int) : ℚ) := by norm_num
    rw [Finset.sum_range_succ, Finset.sum_range_one, Finset.sum_range_succ,
      Finset.sum_range_one, e0, e1, x1, noise1_intCast PERM 1 0 (by decide), pow_zero, mul_one,
      noise1_half_3] at e
    rw [show ((2 : Int)) = ((2 : Nat) : Int) from rfl, e]
    norm_num
  · rw [abs_of_pos (by norm_num)]
    norm_num

/-- C11 (amended): for `n ≥ 1` octaves, a persistence `p ≥ 0`, and any lacunarity, period
and base for which the period handed to each octave, `(int)(repeat * l ^ k)`, is not zero,
`py_noise1` returns a value within `[-1.1, 1.1]`. -/
theorem py_noise1_bounded (PERM : Int → Int) (x p l : ℚ) (R base : Int) (n : Nat)
    (hn : 1 ≤ n) (hp : 0 ≤ p) (h : ∀ k : Nat, k < n → c_int ((R : ℚ) * l ^ k) ≠ 0) :
    ∃ v : ℚ, py_noise1 PERM x (n : Int) p l R base = PyResult.ok v ∧ |v| ≤ 11 / 10 :=
  ⟨_, py_noise1_closed PERM x p l R base n hn h,
    abs_weighted_mean_le _ p (11 / 10) n hn hp
      fun k hk => noise1_getD_abs_le PERM _ base (h k hk)⟩

/-- C11 witness: two octaves at x = 1/2 with persistence 1/2, lacunarity 3/2, period 3. -/
theorem py_noise1_bounded_witness :
    (1 ≤ 2 ∧ (0 : ℚ) ≤ 1 / 2 ∧
      ∀ k : Nat, k < 2 → c_int (((3 : Int) : ℚ) * (3 / 2) ^ k) ≠ 0) ∧
    ∃ v : ℚ, py_noise1 PERM (1 / 2) ((2 : Nat) : Int) (1 / 2) (3 / 2) 3 0 = PyResult.ok v ∧
      |v| ≤ 11 / 10 :=
  ⟨⟨by decide, by norm_num, periods_3_threehalves⟩,
    py_noise1_bounded PERM (1 / 2) (1 / 2) (3 / 2) 3 0 2 (by decide) (by norm_num)
      periods_3_threehalves⟩

/-! ## C12, C13: one octave, and the sample at the origin -/

/-- C12: called with `octaves = 1`, each scalar entry point does exactly what the kernel
does, whatever the persistence and lacunarity: `py_noise1` has the outcome of
`noise1(x, repeat, base)` (its value, for a non-zero period), `py_noise2` returns
`noise2(x, y, repeatx, repeaty, base)` and `py_noise3` returns
`noise3(x, y, z, repeatx, repeaty, repeatz, base)`. -/
theorem octave_one_identity (PERM : Int → Int) (GRAD3 : Int → Int → ℚ) (x y z p l : ℚ)
    (R rx ry rz base : Int) (fx fy : ℚ) :
    py_noise1 PERM x 1 p l R base = PyResult.ofOption (noise1 PERM x R base) ∧
    (R ≠ 0 → ∃ v : ℚ, noise1 PERM x R base = some v ∧
      py_noise1 PERM x 1 p l R base = PyResult.ok v) ∧
    py_noise2 PERM GRAD3 x y 1 p l fx fy base = PyResult.ok (noise2 PERM GRAD3 x y fx fy base) ∧
    py_noise3 PERM GRAD3 x y z 1 p l rx ry rz base
      = PyResult.ok (noise3 PERM GRAD3 x y z rx ry rz base) := by
  refine ⟨py_noise1_one PERM x p l R base, fun hR => ?_, ?_, ?_⟩
  · refine ⟨_, noise1_of_ne PERM x base hR, ?_⟩
    rw [py_noise1_one, noise1_of_ne PERM x base hR]
    rfl
  · simp only [py_noise2, if_true]
  · simp only [py_noise3, if_true]

/-- C12 witness: the table `PERM` at x = 1/2 with the default period 1024. -/
theorem octave_one_identity_witness :
    (1024 : Int) ≠ 0 ∧ ∃ v : ℚ, noise1 PERM (1 / 2) 1024 0 = some v ∧
      py_noise1 PERM (1 / 2) 1 (1 / 2) 2 1024 0 = PyResult.ok v :=
  ⟨by decide,
    (octave_one_identity PERM GRAD3 (1 / 2) 0 0 (1 / 2) 2 1024 1024 1024 1024 0 1024 1024).2.1
      (by decide)⟩

theorem noise1_origin (PERM : Int → Int) {R : Int} (base : Int) (hR : R ≠ 0) :
    noise1 PERM 0 R base = some 0 := by
  have h := noise1_intCast PERM 0 base hR
  rwa [Int.cast_zero] at h

theorem noise3_origin (PERM : Int → Int) (GRAD3 : Int → Int → ℚ) (Rx Ry Rz base : Int) :
    noise3 PERM GRAD3 0 0 0 Rx Ry Rz base = 0 := by
  have h := noise3_intCast PERM GRAD3 0 0 0 Rx Ry Rz base
  rwa [Int.cast_zero] at h

/-- C13: with the default parameters (one octave, periods 1024, base 0) and any table
contents, `noise1(0.0)` and `noise3(0.0, 0.0, 0.0)` return 0: the fade weight of offset 0 is 0
and the gradient of the origin corner is multiplied by the offset 0. -/
theorem origin_sample_zero (PERM : Int → Int) (GRAD3 : Int → Int → ℚ) (p l : ℚ) :
    py_noise1 PERM 0 1 p l 1024 0 = PyResult.ok 0 ∧
    py_noise3 PERM GRAD3 0 0 0 1 p l 1024 1024 1024 0 = PyResult.ok 0 ∧
    fade_weight 0 = 0 ∧
    (∀ hash : Int, grad1 hash 0 = 0) ∧
    (∀ hash : Int, grad3 GRAD3 hash 0 0 0 = 0) := by
  refine ⟨?_, ?_, ?_, ?_, ?_⟩
  · rw [py_noise1_one, noise1_origin PERM 0 (by decide)]
    rfl
  · simp only [py_noise3, if_true, noise3_origin]
  · simp [fade_weight]
  · intro hash
    simp [grad1]
  · intro hash
    simp [grad3]

/-! ## C16, C17: the gradient of `grad1` and the fade curve -/

/-- What `grad1` computes: a set bit 3 gives the factor -1, a clear bit 3 the factor
`(hash & 7) + 1`. -/
theorem grad1_scheme (hash : Int) (x : ℚ) :
    grad1 hash x = (if c_and hash 8 ≠ 0 then -1 else ((c_and hash 7 : Int) : ℚ) + 1) * x :=
  rfl

/-- C16: for hash 9 (bit 3 set, `hash & 7` = 1, magnitude 2) and offset 1 `grad1` returns -1,
where sign times magnitude times offset is -2. -/
theorem grad1_drops_magnitude :
    grad1 9 1 = -1 ∧ c_and 9 8 ≠ 0 ∧ ((c_and 9 7 : Int) : ℚ) + 1 = 2 ∧
      grad1 9 1 ≠ -1 * (((c_and 9 7 : Int) : ℚ) + 1) * 1 := by
  have h8 : c_and 9 8 ≠ 0 := by decide
  have h7 : c_and 9 7 = 1 := by decide
  refine ⟨?_, h8, ?_, ?_⟩
  · rw [grad1_neg 9 1 h8]
  · rw [h7]
    norm_num
  · rw [grad1_neg 9 1 h8, h7]
    norm_num

/-- C17: the weight the kernels compute, `t*t*t * (t * (t * 6 - 15) + 10)`, is the quintic
`6t^5 - 15t^4 + 10t^3` of the specification; it is 0 at 0 and 1 at 1, so that `lerp` with
this weight returns its first value at offset 0 and its second value at offset 1. -/
theorem fade_weight_eq_spec (t a b : ℚ) :
    fade_weight t = fade_spec t ∧ fade_weight 0 = 0 ∧ fade_weight 1 = 1 ∧
      lerp (fade_weight t) a b = a + fade_weight t * (b - a) ∧
      lerp (fade_weight 0) a b = a ∧ lerp (fade_weight 1) a b = b := by
  refine ⟨?_, ?_, ?_, rfl, ?_, ?_⟩
  · unfold fade_weight fade_spec
    ring
  · norm_num [fade_weight]
  · norm_num [fade_weight]
  · norm_num [fade_weight, lerp]
  · norm_num [fade_weight, lerp]

/-- The kernel `noise1` interpolates with `fade_weight` of the offset from the cell. -/
theorem noise1_uses_fade_weight (PERM : Int → Int) (x : ℚ) {R : Int} (base : Int)
    (hR : R ≠ 0) :
    noise1 PERM x R base =
      some (lerp (fade_weight (x - ⌊x⌋))
        (grad1 (PERM (Int.tmod ⌊x⌋ R % 256 + base)) (x - ⌊x⌋))
        (grad1 (PERM (Int.tmod (Int.tmod ⌊x⌋ R + 1) R % 256 + base)) (x - ⌊x⌋ - 1))
        * (2 / 5)) :=
  noise1_of_ne PERM x base hR

/-! ## C14: `noise1` next to an integer coordinate -/

/-- With gradient factors of size at most 8, the scaled interpolation is at most 16/5 times
the sum of the two corner weights. -/
theorem lerp_grad1_le_weights (h0 h1 : Int) {t : ℚ} (t0 : 0 ≤ t) (t1 : t ≤ 1) :
    |lerp (t * t * t * (t * (t * 6 - 15) + 10)) (grad1 h0 t) (grad1 h1 (t - 1)) * (2 / 5)|
      ≤ 16 / 5 * (t * (1 - t * t * t * (t * (t * 6 - 15) + 10)) +
          (1 - t) * (t * t * t * (t * (t * 6 - 15) + 10))) := by
  obtain ⟨g0, a0, b0, e0⟩ := grad1_factor h0
  obtain ⟨g1, a1, b1, e1⟩ := grad1_factor h1
  have f0 := fade_nonneg t0
  have f1 := fade_le_one t0 t1
  rw [e0, e1]
  unfold lerp
  generalize t * t * t * (t * (t * 6 - 15) + 10) = f at *
  have u0 : 0 ≤ t * (1 - f) := mul_nonneg t0 (sub_nonneg.mpr f1)
  have v0 : 0 ≤ (1 - t) * f := mul_nonneg (sub_nonneg.mpr t1) f0
  have e : (g0 * t + f * (g1 * (t - 1) - g0 * t)) * (2 / 5) =
      (g0 * (t * (1 - f)) - g1 * ((1 - t) * f)) * (2 / 5) := by ring
  have m1 : g0 * (t * (1 - f)) ≤ 8 * (t * (1 - f)) := mul_le_mul_of_nonneg_right b0 u0
  have m2 : -1 * (t * (1 - f)) ≤ g0 * (t * (1 - f)) := mul_le_mul_of_nonneg_right a0 u0
  have m3 : g1 * ((1 - t) * f) ≤ 8 * ((1 - t) * f) := mul_le_mul_of_nonneg_right b1 v0
  have m4 : -1 * ((1 - t) * f) ≤ g1 * ((1 - t) * f) := mul_le_mul_of_nonneg_right a1 v0
  rw [e, abs_le]
  constructor <;> linarith

/-- Within 1/1000 of the left end of a cell the two corner weights sum to at most 2/1000. -/
theorem weights_small_left {t : ℚ} (t0 : 0 ≤ t) (t1 : t ≤ 1 / 1000) :
    t * (1 - t * t * t * (t * (t * 6 - 15) + 10)) +
      (1 - t) * (t * t * t * (t * (t * 6 - 15) + 10)) ≤ 2 / 1000 := by
  have f0 := fade_nonneg t0
  have hf : t * t * t * (t * (t * 6 - 15) + 10) ≤ t := by
    have h1 : t * (t * 6 - 15) + 10 ≤ 10 := by nlinarith
    have h2 : 0 ≤ t * t * t := mul_nonneg (mul_nonneg t0 t0) t0
    have h3 : t * t * t * (t * (t * 6 - 15) + 10) ≤ t * t * t * 10 :=
      mul_le_mul_of_nonneg_left h1 h2
    have h4 : t * t ≤ 1 / 1000000 := by nlinarith
    have h5 : t * t * t * 10 ≤ t := by nlinarith
    linarith
  generalize t * t * t * (t * (t * 6 - 15) + 10) = f at *
  nlinarith [mul_nonneg t0 f0]

/-- Within 1/1000 of the right end of a cell the two corner weights sum to at most 2/1000. -/
theorem weights_small_right {d : ℚ} (d0 : 0 ≤ d) (d1 : d ≤ 1 / 1000) :
    (1 - d) * (1 - (1 - d) * (1 - d) * (1 - d) * ((1 - d) * ((1 - d) * 6 - 15) + 10)) +
      (1 - (1 - d)) * ((1 - d) * (1 - d) * (1 - d) * ((1 - d) * ((1 - d) * 6 - 15) + 10))
      ≤ 2 / 1000 := by
  have h := weights_small_left d0 d1
  have e : (1 - d) * (1 - (1 - d) * (1 - d) * (1 - d) * ((1 - d) * ((1 - d) * 6 - 15) + 10)) +
      (1 - (1 - d)) * ((1 - d) * (1 - d) * (1 - d) * ((1 - d) * ((1 - d) * 6 - 15) + 10)) =
      d * (1 - d * d * d * (d * (d * 6 - 15) + 10)) +
        (1 - d) * (d * d * d * (d * (d * 6 - 15) + 10)) := by ring
  rw [e]
  exact h

theorem floor_int_add_small (n : Int) {d : ℚ} (d0 : 0 ≤ d) (d1 : d < 1) :
    ⌊(n : ℚ) + d⌋ = n := by
  rw [Int.floor_eq_iff]
  constructor <;> linarith

theorem floor_int_sub_small (n : Int) {d : ℚ} (d0 : 0 < d) (d1 : d ≤ 1) :
    ⌊(n : ℚ) - d⌋ = n - 1 := by
  rw [Int.floor_eq_iff]
  push_cast
  constructor <;> linarith

/-- C14: for every integer `n`, every step `0 < d ≤ 0.001`, every period `R > 0`, base and
table contents, `noise1` returns values at `n - d`, `n` and `n + d`, and the values at
`n - d` and at `n + d` differ from the value at `n` by at most 0.01. -/
theorem noise1_continuous_at_int (PERM : Int → Int) (n : Int) (d : ℚ) (R base : Int)
    (hd0 : 0 < d) (hd1 : d ≤ 1 / 1000) (hR : 0 < R) :
    ∃ a b c : ℚ, noise1 PERM ((n : ℚ) - d) R base = some a ∧
      noise1 PERM (n : ℚ) R base = some b ∧
      noise1 PERM ((n : ℚ) + d) R base = some c ∧
      |a - b| ≤ 1 / 100 ∧ |c - b| ≤ 1 / 100 := by
  refine ⟨_, 0, _, noise1_of_ne PERM _ base hR.ne', noise1_intCast PERM n base hR.ne',
    noise1_of_ne PERM _ base hR.ne', ?_, ?_⟩
  · rw [sub_zero, floor_int_sub_small n hd0 (by linarith)]
    have e : (n : ℚ) - d - ((n - 1 : Int) : ℚ) = 1 - d := by push_cast; ring
    rw [e]
    have h := lerp_grad1_le_weights
      (PERM ((n - 1).tmod R % 256 + base)) (PERM (((n - 1).tmod R + 1).tmod R % 256 + base))
      (show (0 : ℚ) ≤ 1 - d by linarith) (show 1 - d ≤ 1 by linarith)
    have w := weights_small_right hd0.le hd1
    linarith
  · rw [sub_zero, floor_int_add_small n hd0.le (by linarith)]
    have e : (n : ℚ) + d - (n : ℚ) = d := by ring
    rw [e]
    have h := lerp_grad1_le_weights
      (PERM (n.tmod R % 256 + base)) (PERM ((n.tmod R + 1).tmod R % 256 + base))
      hd0.le (show d ≤ 1 by linarith)
    have w := weights_small_left hd0.le hd1
    linarith

/-- C14 witness: the table `PERM` around the integer 3 with step 1/1000 and period 1024. -/
theorem noise1_continuous_at_int_witness :
    ((0 : ℚ) < 1 / 1000 ∧ (1 / 1000 : ℚ) ≤ 1 / 1000 ∧ (0 : Int) < 1024) ∧
    ∃ a b c : ℚ, noise1 PERM (((3 : Int) : ℚ) - 1 / 1000) 1024 0 = some a ∧
      noise1 PERM ((3 : Int) : ℚ) 1024 0 = some b ∧
      noise1 PERM (((3 : Int) : ℚ) + 1 / 1000) 1024 0 = some c ∧
      |a - b| ≤ 1 / 100 ∧ |c - b| ≤ 1 / 100 :=
  ⟨⟨by norm_num, le_refl _, by decide⟩,
    noise1_continuous_at_int PERM 3 (1 / 1000) 1024 0 (by norm_num) (le_refl _) (by decide)⟩

/-! ## C15: the repeat period is not checked -/

theorem noise1_half_neg3 : noise1 PERM (1 / 2) (-3) 0 = some (7 / 10) := by
  rw [noise1_eval PERM _ (-3) 0 0 0 1 (by decide) (by norm_num) (by decide) (by decide),
    PERM_0, PERM_1, grad1_pos 151 _ (by decide), grad1_pos 160 _ (by decide)]
  norm_num [lerp]

/-- C15 counterexample: `noise1(0.5, repeat = -3)` with one octave is not rejected; it
returns 7/10, computed with `% -3`. -/
theorem py_noise1_negative_repeat_accepted :
    py_noise1 PERM (1 / 2) 1 (1 / 2) 2 (-3) 0 = PyResult.ok (7 / 10) := by
  rw [py_noise1_one, noise1_half_neg3]
  rfl

/-- C15 (amended): no scalar noise function checks the repeat period. For `octaves ≥ 1` and
every period, positive or not, `py_noise1` raises no `ValueError` and `py_noise2`, `py_noise3`
return a value; with one octave and a negative period `py_noise1` returns the value `noise1`
computes with `%` by that period. -/
theorem repeat_not_checked (PERM : Int → Int) (GRAD3 : Int → Int → ℚ) (x y z p l : ℚ)
    (octaves R rx ry rz base : Int) (fx fy : ℚ) (ho : 1 ≤ octaves) :
    (∀ msg : String, py_noise1 PERM x octaves p l R base ≠ PyResult.valueError msg) ∧
    (∃ v : ℚ, py_noise2 PERM GRAD3 x y octaves p l fx fy base = PyResult.ok v) ∧
    (∃ v : ℚ, py_noise3 PERM GRAD3 x y z octaves p l rx ry rz base = PyResult.ok v) ∧
    (R < 0 → ∃ v : ℚ, noise1 PERM x R base = some v ∧
      py_noise1 PERM x 1 p l R base = PyResult.ok v) := by
  have h1 : octaves = 1 ∨ octaves > 1 := by omega
  refine ⟨fun msg => ?_, ?_, ?_, fun hR => ?_⟩
  · unfold py_noise1
    rcases h1 with h | h
    · rw [if_pos h]
      exact ofOption_ne_valueError _ _
    · rw [if_neg (by omega), if_pos h]
      exact ofOption_ne_valueError _ _
  · unfold py_noise2
    rcases h1 with h | h
    · exact ⟨_, by rw [if_pos h]⟩
    · exact ⟨_, by rw [if_neg (by omega), if_pos h]⟩
  · unfold py_noise3
    rcases h1 with h | h
    · exact ⟨_, by rw [if_pos h]⟩
    · exact ⟨_, by rw [if_neg (by omega), if_pos h]⟩
  · refine ⟨_, noise1_of_ne PERM x base hR.ne, ?_⟩
    rw [py_noise1_one, noise1_of_ne PERM x base hR.ne]
    rfl

/-- C15 witness: two octaves, and the period -3 for `py_noise1`. -/
theorem repeat_not_checked_witness :
    ((1 : Int) ≤ 2 ∧
      ∀ msg : String, py_noise1 PERM (1 / 2) 2 (1 / 2) 2 (-3) 0 ≠ PyResult.valueError msg) ∧
    ((-3 : Int) < 0 ∧ ∃ v : ℚ, noise1 PERM (1 / 2) (-3) 0 = some v ∧
      py_noise1 PERM (1 / 2) 1 (1 / 2) 2 (-3) 0 = PyResult.ok v) :=
  ⟨⟨by decide,
      (repeat_not_checked PERM GRAD3 (1 / 2) 0 0 (1 / 2) 2 2 (-3) (-3) (-3) (-3) 0 (-3) (-3)
        (by decide)).1⟩,
    ⟨by decide,
      (repeat_not_checked PERM GRAD3 (1 / 2) 0 0 (1 / 2) 2 2 (-3) (-3) (-3) (-3) 0 (-3) (-3)
        (by decide)).2.2.2 (by decide)⟩⟩

/-! ## C18: the table indices stay within the extended table -/

theorem c_and_255_bounds (i : Int) : 0 ≤ c_and i 255 ∧ c_and i 255 ≤ 255 := by
  rw [c_and_255]
  have h0 : 0 ≤ i % 256 := Int.emod_nonneg _ (by decide)
  have h1 : i % 256 < 256 := Int.emod_lt_of_pos _ (by decide)
  omega

/-- Bounds of the two indices of `noise1`, given masked cell indices. -/
theorem reads1_bound (i ii : Int) (hi : 0 ≤ i ∧ i ≤ 255) (hii : 0 ≤ ii ∧ ii ≤ 255) :
    ∀ r ∈ [i, ii], 0 ≤ r ∧ r ≤ 510 := by
  intro r hr
  simp only [List.mem_cons, List.mem_singleton, List.not_mem_nil, or_false] at hr
  rcases hr with rfl | rfl <;> omega

/-- Bounds of the ten indices of `noise2`, given masked cell indices and table entries in
0..255. -/
theorem reads2_bound (PERM : Int → Int)
    (hP : ∀ i : Int, 0 ≤ i → i ≤ 511 → 0 ≤ PERM i ∧ PERM i ≤ 255) (i j ii jj : Int)
    (hi : 0 ≤ i ∧ i ≤ 255) (hj : 0 ≤ j ∧ j ≤ 255) (hii : 0 ≤ ii ∧ ii ≤ 255)
    (hjj : 0 ≤ jj ∧ jj ≤ 255) :
    ∀ r ∈ [i, PERM i + j, PERM i + jj, ii, PERM ii + j, PERM ii + jj,
        PERM (PERM i + j), PERM (PERM ii + j), PERM (PERM i + jj), PERM (PERM ii + jj)],
      0 ≤ r ∧ r ≤ 510 := by
  have hA := hP i hi.1 (by omega)
  have hB := hP ii hii.1 (by omega)
  have hAA := hP (PERM i + j) (by omega) (by omega)
  have hAB := hP (PERM i + jj) (by omega) (by omega)
  have hBA := hP (PERM ii + j) (by omega) (by omega)
  have hBB := hP (PERM ii + jj) (by omega) (by omega)
  intro r hr
  simp only [List.mem_cons, List.mem_singleton, List.not_mem_nil, or_false] at hr
  rcases hr with rfl | rfl | rfl | rfl | rfl | rfl | rfl | rfl | rfl | rfl <;> omega

/-- Bounds of the fourteen indices of `noise3`, given masked cell indices and table entries
in 0..255. -/
theorem reads3_bound (PERM : Int → Int)
    (hP : ∀ i : Int, 0 ≤ i → i ≤ 511 → 0 ≤ PERM i ∧ PERM i ≤ 255) (i j k ii jj kk : Int)
    (hi : 0 ≤ i ∧ i ≤ 255) (hj : 0 ≤ j ∧ j ≤ 255) (hk : 0 ≤ k ∧ k ≤ 255)
    (hii : 0 ≤ ii ∧ ii ≤ 255) (hjj : 0 ≤ jj ∧ jj ≤ 255) (hkk : 0 ≤ kk ∧ kk ≤ 255) :
    ∀ r ∈ [i, PERM i + j, PERM i + jj, ii, PERM ii + j, PERM ii + jj,
        PERM (PERM i + j) + k, PERM (PERM ii + j) + k, PERM (PERM i + jj) + k,
        PERM (PERM ii + jj) + k, PERM (PERM i + j) + kk, PERM (PERM ii + j) + kk,
        PERM (PERM i + jj) + kk, PERM (PERM ii + jj) + kk],
      0 ≤ r ∧ r ≤ 510 := by
  have hA := hP i hi.1 (by omega)
  have hB := hP ii hii.1 (by omega)
  have hAA := hP (PERM i + j) (by omega) (by omega)
  have hAB := hP (PERM i + jj) (by omega) (by omega)
  have hBA := hP (PERM ii + j) (by omega) (by omega)
  have hBB := hP (PERM ii + jj) (by omega) (by omega)
  intro r hr
  simp only [List.mem_cons, List.mem_singleton, List.not_mem_nil, or_false] at hr
  rcases hr with rfl | rfl | rfl | rfl | rfl | rfl | rfl | rfl | rfl | rfl | rfl | rfl | rfl |
    rfl <;> omega

theorem noise1_reads_of_ne (x : ℚ) {R : Int} (base : Int) (hR : R ≠ 0) :
    noise1_reads x R base =
      some [c_and (Int.tmod ⌊x⌋ R) 255 + base,
        c_and (Int.tmod (Int.tmod ⌊x⌋ R + 1) R) 255 + base] := by
  simp [noise1_reads, c_int_floorf, c_mod_of_ne _ hR]

/-- C18: with base 0, positive periods and a table whose entries (at the indices 0..511) lie
in 0..255, every index at which `noise1`, `noise2` and `noise3` read the table, the chained
reads included, lies in 0..510, for every coordinate, negative ones included. -/
theorem table_reads_in_bounds (PERM : Int → Int) (x y z : ℚ) (R rx ry rz : Int) (fx fy : ℚ)
    (hP : ∀ i : Int, 0 ≤ i → i ≤ 511 → 0 ≤ PERM i ∧ PERM i ≤ 255)
    (hR : 0 < R) (_hrx : 0 < rx) (_hry : 0 < ry) (_hrz : 0 < rz) (_hfx : 0 < fx)
    (_hfy : 0 < fy) :
    (∃ rs : List Int, noise1_reads x R 0 = some rs ∧ ∀ r ∈ rs, 0 ≤ r ∧ r ≤ 510) ∧
    (∀ r ∈ noise2_reads PERM x y fx fy 0, 0 ≤ r ∧ r ≤ 510) ∧
    (∀ r ∈ noise3_reads PERM x y z rx ry rz 0, 0 ≤ r ∧ r ≤ 510) := by
  refine ⟨⟨_, noise1_reads_of_ne x 0 hR.ne', ?_⟩, ?_, ?_⟩
  · simp only [add_zero]
    exact reads1_bound _ _ (c_and_255_bounds _) (c_and_255_bounds _)
  · simp only [noise2_reads, add_zero]
    exact reads2_bound PERM hP _ _ _ _ (c_and_255_bounds _) (c_and_255_bounds _)
      (c_and_255_bounds _) (c_and_255_bounds _)
  · simp only [noise3_reads, add_zero]
    exact reads3_bound PERM hP _ _ _ _ _ _ (c_and_255_bounds _) (c_and_255_bounds _)
      (c_and_255_bounds _) (c_and_255_bounds _) (c_and_255_bounds _) (c_and_255_bounds _)

theorem PERM_entries_bounds (n : Nat) :
    0 ≤ PERM_entries.getD n 0 ∧ PERM_entries.getD n 0 ≤ 255 := by
  have h : ∀ v ∈ PERM_entries, 0 ≤ v ∧ v ≤ 255 := by
    set_option maxRecDepth 4096 in decide
  rcases Nat.lt_or_ge n PERM_entries.length with hn | hn
  · rw [List.getD_eq_getElem _ _ hn]
    exact h _ (List.getElem_mem hn)
  · rw [List.getD_eq_default _ _ hn]
    decide

theorem PERM_bounds (i : Int) : 0 ≤ PERM i ∧ PERM i ≤ 255 := by
  unfold PERM
  split_ifs
  · exact PERM_entries_bounds _
  · decide

/-- C18 witness: the table `PERM` at the negative coordinates -1/2, -7/3, -9/4 with the
default periods 1024. -/
theorem table_reads_in_bounds_witness :
    ((∀ i : Int, 0 ≤ i → i ≤ 511 → 0 ≤ PERM i ∧ PERM i ≤ 255) ∧ (0 : Int) < 1024 ∧
      (0 : ℚ) < 1024) ∧
    (∃ rs : List Int, noise1_reads (-1 / 2) 1024 0 = some rs ∧ ∀ r ∈ rs, 0 ≤ r ∧ r ≤ 510) ∧
    (∀ r ∈ noise2_reads PERM (-1 / 2) (-7 / 3) 1024 1024 0, 0 ≤ r ∧ r ≤ 510) ∧
    (∀ r ∈ noise3_reads PERM (-1 / 2) (-7 / 3) (-9 / 4) 1024 1024 1024 0,
      0 ≤ r ∧ r ≤ 510) :=
  ⟨⟨fun i _ _ => PERM_bounds i, by decide, by norm_num⟩,
    table_reads_in_bounds PERM (-1 / 2) (-7 / 3) (-9 / 4) 1024 1024 1024 1024 1024 1024
      (fun i _ _ => PERM_bounds i) (by decide) (by decide) (by decide) (by decide)
      (by norm_num) (by norm_num)⟩

/-- The value of `noise1` depends on the table only through the entries at `noise1_reads`. -/
theorem noise1_congr_reads (P Q : Int → Int) (x : ℚ) (R base : Int)
    (h : ∀ rs : List Int, noise1_reads x R base = some rs → ∀ r ∈ rs, P r = Q r) :
    noise1 P x R base = noise1 Q x R base := by
  by_cases hR : R = 0
  · subst hR
    rw [noise1_zero_period, noise1_zero_period]
  · have h' := h _ (noise1_reads_of_ne x base hR)
    simp only [List.mem_cons, List.mem_singleton, List.not_mem_nil, or_false, forall_eq_or_imp,
      forall_eq, c_and_255] at h'
    rw [noise1_of_ne P x base hR, noise1_of_ne Q x base hR, h'.1, h'.2]

/-- The value of `noise2` depends on the table only through the entries at `noise2_reads`. -/
theorem noise2_congr_reads (P Q : Int → Int) (GRAD3 : Int → Int → ℚ) (x y rx ry : ℚ)
    (base : Int) (h : ∀ r ∈ noise2_reads P x y rx ry base, P r = Q r) :
    noise2 P GRAD3 x y rx ry base = noise2 Q GRAD3 x y rx ry base := by
  simp only [noise2_reads, List.mem_cons, List.mem_singleton, List.not_mem_nil, or_false,
    forall_eq_or_imp, forall_eq] at h
  obtain ⟨h1, h2, h3, h4, h5, h6, h7, h8, h9, h10⟩ := h
  simp only [noise2, ← h1, ← h2, ← h3, ← h4, ← h5, ← h6, ← h7, ← h8, ← h9, ← h10]

/-- The value of `noise3` depends on the table only through the entries at `noise3_reads`. -/
theorem noise3_congr_reads (P Q : Int → Int) (GRAD3 : Int → Int → ℚ) (x y z : ℚ)
    (rx ry rz base : Int) (h : ∀ r ∈ noise3_reads P x y z rx ry rz base, P r = Q r) :
    noise3 P GRAD3 x y z rx ry rz base = noise3 Q GRAD3 x y z rx ry rz base := by
  simp only [noise3_reads, List.mem_cons, List.mem_singleton, List.not_mem_nil, or_false,
    forall_eq_or_imp, forall_eq] at h
  obtain ⟨h1, h2, h3, h4, h5, h6, h7, h8, h9, h10, h11, h12, h13, h14⟩ := h
  simp only [noise3, ← h1, ← h2, ← h3, ← h4, ← h5, ← h6, ← h7, ← h8, ← h9, ← h10, ← h11,
    ← h12, ← h13, ← h14]

/-! ## C19: the multi-octave loop of `py_arr_noise3` -/

/-- With an integer lacunarity the octave loop of `py_arr_noise3` keeps an integer frequency
and the total 0: every octave samples `noise3` at integer coordinates. -/
theorem arr_octave3_iterate (PERM : Int → Int) (GRAD3 : Int → Int → ℚ) (lx ly lz : Int)
    (p : ℚ) (L : Int) (rx ry rz : ℚ) (base : Int) (n : Nat) :
    ((arr_octave3 PERM GRAD3 lx ly lz p (L : ℚ) rx ry rz base)^[n] {}).freq
        = ((L ^ n : Int) : ℚ) ∧
      ((arr_octave3 PERM GRAD3 lx ly lz p (L : ℚ) rx ry rz base)^[n] {}).total = 0 := by
  induction n with
  | zero => exact ⟨by simp, rfl⟩
  | succ n ih =>
    rw [Function.iterate_succ_apply']
    obtain ⟨hf, ht⟩ := ih
    generalize (arr_octave3 PERM GRAD3 lx ly lz p (L : ℚ) rx ry rz base)^[n] {} = s at hf ht
    constructor
    · simp only [arr_octave3, hf]
      push_cast
      ring
    · simp only [arr_octave3, hf, ht]
      rw [show (lx : ℚ) * ((L ^ n : Int) : ℚ) = ((lx * L ^ n : Int) : ℚ) by push_cast; ring,
        show (ly : ℚ) * ((L ^ n : Int) : ℚ) = ((ly * L ^ n : Int) : ℚ) by push_cast; ring,
        show (lz : ℚ) * ((L ^ n : Int) : ℚ) = ((lz * L ^ n : Int) : ℚ) by push_cast; ring,
        noise3_intCast]
      ring

/-- C19: for `octaves ≥ 2`, an integer lacunarity, a persistence `p ≥ 0` and positive
periods, `noisearr3` returns an array every store of which has the value 0: the sample
coordinates are held in `int` locals, so every octave evaluates `noise3` at integer
coordinates, where it is 0. -/
theorem py_arr_noise3_multi_zero (PERM : Int → Int) (GRAD3 : Int → Int → ℚ) (x y z : ℚ)
    (x_size y_size z_size : Int) (x_res y_res z_res : ℚ) (octaves : Int) (p : ℚ) (L : Int)
    (rx ry rz : ℚ) (base : Int) (ho : 2 ≤ octaves) (_hp : 0 ≤ p) (_hrx : 0 < rx)
    (_hry : 0 < ry) (_hrz : 0 < rz) :
    ∃ a : NpArray,
      py_arr_noise3 PERM GRAD3 x y z x_size y_size z_size x_res y_res z_res octaves p (L : ℚ)
        rx ry rz base = PyResult.ok a ∧
      ∀ w ∈ a.writes, w.2 = 0 := by
  have h0 : ¬ octaves ≤ 0 := by omega
  have h1 : ¬ octaves = 1 := by omega
  simp only [py_arr_noise3, if_neg h0, if_neg h1]
  refine ⟨_, rfl, ?_⟩
  intro w hw
  simp only [List.mem_flatMap, List.mem_map, List.mem_range] at hw
  obtain ⟨i, _, j, _, k, _, rfl⟩ := hw
  simp only [(arr_octave3_iterate PERM GRAD3 _ _ _ p L rx ry rz base _).2, zero_div]

/-- C19 witness: a 2 by 2 by 2 grid from (1/2, 1/3, 1/4) with resolutions 3, three octaves,
persistence 1/2, lacunarity 2 and periods 1024. -/
theorem py_arr_noise3_multi_zero_witness :
    ((2 : Int) ≤ 3 ∧ (0 : ℚ) ≤ 1 / 2 ∧ (0 : ℚ) < 1024) ∧
    ∃ a : NpArray,
      py_arr_noise3 PERM GRAD3 (1 / 2) (1 / 3) (1 / 4) 2 2 2 3 3 3 3 (1 / 2) ((2 : Int) : ℚ)
        1024 1024 1024 0 = PyResult.ok a ∧
      ∀ w ∈ a.writes, w.2 = 0 :=
  ⟨⟨by decide, by norm_num, by norm_num⟩,
    py_arr_noise3_multi_zero PERM GRAD3 (1 / 2) (1 / 3) (1 / 4) 2 2 2 3 3 3 3 (1 / 2) 2
      1024 1024 1024 0 (by decide) (by norm_num) (by norm_num) (by norm_num) (by norm_num)⟩

/-! ## C20: the corner shared by neighbouring cells of `noise1` -/

/-- C20: for a cell `n ≥ 0`, a period `R > 0` and any base, the index `noise1` reads for the
corner right of cell `n`, `(((n % R) + 1) % R & 255) + base`, is the index it reads for the
corner left of cell `n + 1`, `(((n + 1) % R) & 255) + base`; for the last cell of a period
(`n % R = R - 1`) this is the index of cell 0. -/
theorem noise1_shared_corner (n R base : Int) (hn : 0 ≤ n) (hR : 0 < R) :
    c_and (Int.tmod (Int.tmod n R + 1) R) 255 + base = c_and (Int.tmod (n + 1) R) 255 + base ∧
    (∃ a b c : Int, noise1_reads (n : ℚ) R base = some [a, b] ∧
      noise1_reads ((n + 1 : Int) : ℚ) R base = some [b, c]) ∧
    (Int.tmod n R = R - 1 →
      noise1_reads (n : ℚ) R base = some [c_and (R - 1) 255 + base, c_and 0 255 + base] ∧
      ∃ c : Int, noise1_reads ((0 : Int) : ℚ) R base = some [c_and 0 255 + base, c]) := by
  have e : Int.tmod (Int.tmod n R + 1) R = Int.tmod (n + 1) R := by
    have h1 : 0 ≤ n % R := Int.emod_nonneg _ hR.ne'
    rw [Int.tmod_eq_emod hn hR.le, Int.tmod_eq_emod (by omega) hR.le,
      Int.tmod_eq_emod (by omega) hR.le, Int.emod_add_emod]
  refine ⟨by rw [e], ⟨c_and (Int.tmod n R) 255 + base, c_and (Int.tmod (n + 1) R) 255 + base,
    c_and (Int.tmod (Int.tmod (n + 1) R + 1) R) 255 + base, ?_, ?_⟩, fun hl => ⟨?_,
    c_and (Int.tmod (Int.tmod 0 R + 1) R) 255 + base, ?_⟩⟩
  · rw [noise1_reads_of_ne _ base hR.ne', Int.floor_intCast, e]
  · rw [noise1_reads_of_ne _ base hR.ne', Int.floor_intCast]
  · rw [noise1_reads_of_ne _ base hR.ne', Int.floor_intCast, hl, sub_add_cancel,
      Int.tmod_self]
  · rw [noise1_reads_of_ne _ base hR.ne', Int.floor_intCast, Int.zero_tmod]

/-- C20 witness: cell 5 with period 3 and base 7. -/
theorem noise1_shared_corner_witness :
    ((0 : Int) ≤ 5 ∧ (0 : Int) < 3) ∧
    c_and (Int.tmod (Int.tmod 5 3 + 1) 3) 255 + 7 = c_and (Int.tmod (5 + 1) 3) 255 + 7 :=
  ⟨⟨by decide, by decide⟩, (noise1_shared_corner 5 3 7 (by decide) (by decide)).1⟩

/-! ## C21: the divisor of the octave loops -/

/-- For `p ≥ 0` and at least one term the sum of the amplitudes `p ^ k` is at least 1. -/
theorem one_le_amplitude_sum (p : ℚ) (n : Nat) (hn : 1 ≤ n) (hp : 0 ≤ p) :
    1 ≤ ∑ k ∈ Finset.range n, p ^ k := by
  have h0 : p ^ 0 ≤ ∑ k ∈ Finset.range n, p ^ k :=
    Finset.single_le_sum (f := fun k => p ^ k) (fun k _ => pow_nonneg hp k)
      (Finset.mem_range.mpr hn)
  simpa using h0

/-- Every state the octave loop of `py_noise1` and `py_arr_noise1` reaches after `n` passes has
`amp = p ^ n` and `max` the sum of the `p ^ k`, `k < n`. -/
theorem c_loop_octave1_max (PERM : Int → Int) (x p l : ℚ) (R base : Int) (n : Nat) (s : Fbm)
    (h : c_loop (octave1 PERM x p l R base) n {} = some s) :
    s.amp = p ^ n ∧ s.max = ∑ k ∈ Finset.range n, p ^ k := by
  induction n generalizing s with
  | zero =>
    simp only [c_loop, Option.some.injEq] at h
    subst h
    simp
  | succ n ih =>
    rw [c_loop] at h
    cases hs : c_loop (octave1 PERM x p l R base) n {} with
    | none => rw [hs] at h; simp at h
    | some s' =>
      rw [hs, Option.some_bind] at h
      obtain ⟨ha, hm⟩ := ih s' hs
      unfold octave1 at h
      cases hv : noise1 PERM (x * s'.freq) (c_int ((R : ℚ) * s'.freq)) base with
      | none => rw [hv] at h; simp at h
      | some v =>
        rw [hv, Option.map_some', Option.some.injEq] at h
        subst h
        simp only [ha, hm, Finset.sum_range_succ, pow_succ, and_self]

theorem octave2_max (PERM : Int → Int) (GRAD3 : Int → Int → ℚ) (x y p l rx ry : ℚ)
    (base : Int) (n : Nat) :
    ((octave2 PERM GRAD3 x y p l rx ry base)^[n] {}).amp = p ^ n ∧
      ((octave2 PERM GRAD3 x y p l rx ry base)^[n] {}).max = ∑ k ∈ Finset.range n, p ^ k := by
  induction n with
  | zero => simp
  | succ n ih =>
    rw [Function.iterate_succ_apply']
    simp only [octave2, ih.1, ih.2, Finset.sum_range_succ, pow_succ, and_self]

theorem arr_octave2_max (PERM : Int → Int) (GRAD3 : Int → Int → ℚ) (x y p l rx ry : ℚ)
    (base : Int) (n : Nat) :
    ((arr_octave2 PERM GRAD3 x y p l rx ry base)^[n] {}).amp = p ^ n ∧
      ((arr_octave2 PERM GRAD3 x y p l rx ry base)^[n] {}).max
        = ∑ k ∈ Finset.range n, p ^ k := by
  induction n with
  | zero => simp
  | succ n ih =>
    rw [Function.iterate_succ_apply']
    simp only [arr_octave2, ih.1, ih.2, Finset.sum_range_succ, pow_succ, and_self]

theorem octave3_max (PERM : Int → Int) (GRAD3 : Int → Int → ℚ) (x y z p l : ℚ)
    (rx ry rz base : Int) (n : Nat) :
    ((octave3 PERM GRAD3 x y z p l rx ry rz base)^[n] {}).amp = p ^ n ∧
      ((octave3 PERM GRAD3 x y z p l rx ry rz base)^[n] {}).max
        = ∑ k ∈ Finset.range n, p ^ k := by
  induction n with
  | zero => simp
  | succ n ih =>
    rw [Function.iterate_succ_apply']
    simp only [octave3, ih.1, ih.2, Finset.sum_range_succ, pow_succ, and_self]

theorem arr_octave3_max (PERM : Int → Int) (GRAD3 : Int → Int → ℚ) (lx ly lz : Int)
    (p l rx ry rz : ℚ) (base : Int) (n : Nat) :
    ((arr_octave3 PERM GRAD3 lx ly lz p l rx ry rz base)^[n] {}).amp = p ^ n ∧
      ((arr_octave3 PERM GRAD3 lx ly lz p l rx ry rz base)^[n] {}).max
        = ∑ k ∈ Finset.range n, p ^ k := by
  induction n with
  | zero => simp
  | succ n ih =>
    rw [Function.iterate_succ_apply']
    simp only [arr_octave3, ih.1, ih.2, Finset.sum_range_succ, pow_succ, and_self]

/-- C21: for `n ≥ 2` octaves and a persistence `p ≥ 0`, the accumulated amplitude `max` by
which each fBm loop divides is the sum of the `p ^ k`, `k < n`, and is at least 1: in the loop
of `py_noise1` and `py_arr_noise1` for every state reached after `n` passes, in the loops of
`py_noise2`, `py_arr_noise2`, `py_noise3` and `py_arr_noise3` for the state after `n` passes. -/
theorem fbm_divisor_positive (PERM : Int → Int) (GRAD3 : Int → Int → ℚ) (n : Nat) (p : ℚ)
    (hn : 2 ≤ n) (hp : 0 ≤ p) :
    (∀ (x l : ℚ) (R base : Int) (s : Fbm),
      c_loop (octave1 PERM x p l R base) n {} = some s →
        s.max = ∑ k ∈ Finset.range n, p ^ k ∧ 1 ≤ s.max) ∧
    (∀ (x y l rx ry : ℚ) (base : Int),
      ((octave2 PERM GRAD3 x y p l rx ry base)^[n] {}).max = ∑ k ∈ Finset.range n, p ^ k ∧
        1 ≤ ((octave2 PERM GRAD3 x y p l rx ry base)^[n] {}).max) ∧
    (∀ (x y l rx ry : ℚ) (base : Int),
      ((arr_octave2 PERM GRAD3 x y p l rx ry base)^[n] {}).max
          = ∑ k ∈ Finset.range n, p ^ k ∧
        1 ≤ ((arr_octave2 PERM GRAD3 x y p l rx ry base)^[n] {}).max) ∧
    (∀ (x y z l : ℚ) (rx ry rz base : Int),
      ((octave3 PERM GRAD3 x y z p l rx ry rz base)^[n] {}).max
          = ∑ k ∈ Finset.range n, p ^ k ∧
        1 ≤ ((octave3 PERM GRAD3 x y z p l rx ry rz base)^[n] {}).max) ∧
    (∀ (lx ly lz : Int) (l rx ry rz : ℚ) (base : Int),
      ((arr_octave3 PERM GRAD3 lx ly lz p l rx ry rz base)^[n] {}).max
          = ∑ k ∈ Finset.range n, p ^ k ∧
        1 ≤ ((arr_octave3 PERM GRAD3 lx ly lz p l rx ry rz base)^[n] {}).max) := by
  have h1 : 1 ≤ ∑ k ∈ Finset.range n, p ^ k := one_le_amplitude_sum p n (by omega) hp
  refine ⟨?_, ?_, ?_, ?_, ?_⟩
  · intro x l R base s hs
    have e := (c_loop_octave1_max PERM x p l R base n s hs).2
    exact ⟨e, by rw [e]; exact h1⟩
  · intro x y l rx ry base
    have e := (octave2_max PERM GRAD3 x y p l rx ry base n).2
    exact ⟨e, by rw [e]; exact h1⟩
  · intro x y l rx ry base
    have e := (arr_octave2_max PERM GRAD3 x y p l rx ry base n).2
    exact ⟨e, by rw [e]; exact h1⟩
  · intro x y z l rx ry rz base
    have e := (octave3_max PERM GRAD3 x y z p l rx ry rz base n).2
    exact ⟨e, by rw [e]; exact h1⟩
  · intro lx ly lz l rx ry rz base
    have e := (arr_octave3_max PERM GRAD3 lx ly lz p l rx ry rz base n).2
    exact ⟨e, by rw [e]; exact h1⟩

/-- C21 witness: three octaves with persistence 1/2; the loop of `py_noise1` at x = 1/2 with
lacunarity 2 and period 3 reaches a state, and its `max` is at least 1. -/
theorem fbm_divisor_positive_witness :
    (2 ≤ 3 ∧ (0 : ℚ) ≤ 1 / 2) ∧
    (∃ s : Fbm, c_loop (octave1 PERM (1 / 2) (1 / 2) 2 3 0) 3 {} = some s ∧
      s.max = ∑ k ∈ Finset.range 3, (1 / 2 : ℚ) ^ k ∧ 1 ≤ s.max) ∧
    1 ≤ ((octave3 PERM GRAD3 (1 / 2) 0 0 (1 / 2) 2 1024 1024 1024 0)^[3] {}).max :=
  ⟨⟨by decide, by norm_num⟩,
    ⟨_, c_loop_octave1 PERM (1 / 2) (1 / 2) 2 3 0 3 (fun k _ => periods_3_two k),
      (fbm_divisor_positive PERM GRAD3 3 (1 / 2) (by decide) (by norm_num)).1 _ _ _ _ _
        (c_loop_octave1 PERM (1 / 2) (1 / 2) 2 3 0 3 (fun k _ => periods_3_two k))⟩,
    ((fbm_divisor_positive PERM GRAD3 3 (1 / 2) (by decide) (by norm_num)).2.2.2.1
      (1 / 2) 0 0 2 1024 1024 1024 0).2⟩

end Perlin
